import Mathlib

/-!
# Mollusk SVM test harness: a shallow embedding

This file embeds the parts of the Mollusk instruction-execution harness
(crates `mollusk-svm`, `mollusk-svm-result`, `mollusk-svm-error`) needed to
settle the verification claims, and proves (or refutes) each claim.

Modelling conventions:
* `Pubkey` is an opaque 32-byte identifier compared by bytes; we model it as
  `Nat`.  The handful of well-known external key constants (loader keys, the
  instructions-sysvar id) are modelled as distinct numeric literals.
* Byte strings are `List Nat` (each entry a byte value).
* Machine integers (`u64`, `u32`, `usize`, `i32`) are modelled as `Nat`/`Int`
  with explicit `% 2^w` wherever the Rust code can overflow or truncate.
* Fallible Rust code (panics such as `AccountMissing`, `ProgramNotCached`,
  `bincode` failures) is modelled with `Option`: `none` is a panic/abort.
* The execution engine (invoke context, VM, sysvar cache) is external to the
  repository; it enters the model as an opaque `Engine` whose single
  documented structural property is that executing a message does not change
  the key set of the transaction context (a `TransactionContext` owns a fixed
  ordered vector of transaction accounts).
-/

/-- 32-byte public key, equality by bytes (`trezoa_pubkey::Pubkey`). -/
abbrev Pubkey := Nat

/-- `trezoa_account::Account`. -/
structure Account where
  lamports : Nat
  data : List Nat
  owner : Pubkey
  executable : Bool
  rentEpoch : Nat
  deriving Repr, DecidableEq

/-- `Account::default()`. -/
def Account.default0 : Account :=
  { lamports := 0, data := [], owner := 0, executable := false, rentEpoch := 0 }

/-- `trezoa_instruction::AccountMeta`. -/
structure AccountMeta where
  pubkey : Pubkey
  isSigner : Bool
  isWritable : Bool
  deriving Repr, DecidableEq

/-- `trezoa_instruction::Instruction`. -/
structure Instruction where
  programId : Pubkey
  accounts : List AccountMeta
  data : List Nat
  deriving Repr, DecidableEq

/-! ## Well-known external key constants

These are opaque 32-byte constants defined in the Trezoa SDK crates; they are
pairwise distinct, which is all the harness relies on.  We model them as
distinct `Nat` literals. -/

/-- `trezoa_sdk_ids::native_loader::ID`. -/
def NATIVE_LOADER : Pubkey := 101
/-- `trezoa_sdk_ids::bpf_loader_deprecated::ID` (loader v1). -/
def LOADER_V1 : Pubkey := 102
/-- `trezoa_sdk_ids::bpf_loader::ID` (loader v2). -/
def LOADER_V2 : Pubkey := 103
/-- `trezoa_sdk_ids::bpf_loader_upgradeable::ID` (loader v3). -/
def LOADER_V3 : Pubkey := 104
/-- `trezoa_sdk_ids::loader_v4::ID`. -/
def LOADER_V4 : Pubkey := 105
/-- `trezoa_instructions_sysvar::ID` (the instructions sysvar address). -/
def INSTRUCTIONS_SYSVAR_ID : Pubkey := 106
/-- `trezoa_sysvar_id::ID` (owner of sysvar accounts). -/
def SYSVAR_OWNER_ID : Pubkey := 107

/-! ## `InstructionError` and the Format B (Firedancer) integer codec

`trezoa_instruction::error::InstructionError` is an external SDK enum; the
harness serializes it with `bincode` (4-byte little-endian variant tag,
followed by the variant payload: a `u32` for `Custom`).  The variants below
are listed in the SDK's declaration order, which fixes the bincode tags.
In the current SDK generation `BorshIoError` carries no payload. -/

/-- `trezoa_instruction::error::InstructionError` (external SDK enum). -/
inductive InstructionError where
  | GenericError
  | InvalidArgument
  | InvalidInstructionData
  | InvalidAccountData
  | AccountDataTooSmall
  | InsufficientFunds
  | IncorrectProgramId
  | MissingRequiredSignature
  | AccountAlreadyInitialized
  | UninitializedAccount
  | UnbalancedInstruction
  | ModifiedProgramId
  | ExternalAccountLamportSpend
  | ExternalAccountDataModified
  | ReadonlyLamportChange
  | ReadonlyDataModified
  | DuplicateAccountIndex
  | ExecutableModified
  | RentEpochModified
  | NotEnoughAccountKeys
  | AccountDataSizeChanged
  | AccountNotExecutable
  | AccountBorrowFailed
  | AccountBorrowOutstanding
  | DuplicateAccountOutOfSync
  | Custom (code : Nat)
  | InvalidError
  | ExecutableDataModified
  | ExecutableLamportChange
  | ExecutableAccountNotRentExempt
  | UnsupportedProgramId
  | CallDepth
  | MissingAccount
  | ReentrancyNotAllowed
  | MaxSeedLengthExceeded
  | InvalidSeeds
  | InvalidRealloc
  | ComputeBudgetExceeded
  | PrivilegeEscalation
  | ProgramEnvironmentSetupFailure
  | ProgramFailedToComplete
  | ProgramFailedToCompile
  | Immutable
  | IncorrectAuthority
  | BorshIoError
  | AccountNotRentExempt
  | InvalidAccountOwner
  | ArithmeticOverflow
  | UnsupportedSysvar
  | IllegalOwner
  | MaxAccountsDataAllocationsExceeded
  | MaxAccountsExceeded
  | MaxInstructionTraceLengthExceeded
  | BuiltinProgramsMustConsumeComputeUnits
  deriving Repr

namespace InstructionError

/-- The bincode variant tag (declaration index) of each variant. -/
def tagOf : InstructionError → Nat
  | .GenericError => 0
  | .InvalidArgument => 1
  | .InvalidInstructionData => 2
  | .InvalidAccountData => 3
  | .AccountDataTooSmall => 4
  | .InsufficientFunds => 5
  | .IncorrectProgramId => 6
  | .MissingRequiredSignature => 7
  | .AccountAlreadyInitialized => 8
  | .UninitializedAccount => 9
  | .UnbalancedInstruction => 10
  | .ModifiedProgramId => 11
  | .ExternalAccountLamportSpend => 12
  | .ExternalAccountDataModified => 13
  | .ReadonlyLamportChange => 14
  | .ReadonlyDataModified => 15
  | .DuplicateAccountIndex => 16
  | .ExecutableModified => 17
  | .RentEpochModified => 18
  | .NotEnoughAccountKeys => 19
  | .AccountDataSizeChanged => 20
  | .AccountNotExecutable => 21
  | .AccountBorrowFailed => 22
  | .AccountBorrowOutstanding => 23
  | .DuplicateAccountOutOfSync => 24
  | .Custom _ => 25
  | .InvalidError => 26
  | .ExecutableDataModified => 27
  | .ExecutableLamportChange => 28
  | .ExecutableAccountNotRentExempt => 29
  | .UnsupportedProgramId => 30
  | .CallDepth => 31
  | .MissingAccount => 32
  | .ReentrancyNotAllowed => 33
  | .MaxSeedLengthExceeded => 34
  | .InvalidSeeds => 35
  | .InvalidRealloc => 36
  | .ComputeBudgetExceeded => 37
  | .PrivilegeEscalation => 38
  | .ProgramEnvironmentSetupFailure => 39
  | .ProgramFailedToComplete => 40
  | .ProgramFailedToCompile => 41
  | .Immutable => 42
  | .IncorrectAuthority => 43
  | .BorshIoError => 44
  | .AccountNotRentExempt => 45
  | .InvalidAccountOwner => 46
  | .ArithmeticOverflow => 47
  | .UnsupportedSysvar => 48
  | .IllegalOwner => 49
  | .MaxAccountsDataAllocationsExceeded => 50
  | .MaxAccountsExceeded => 51
  | .MaxInstructionTraceLengthExceeded => 52
  | .BuiltinProgramsMustConsumeComputeUnits => 53

/-- The unit variant with a given bincode tag (every variant except
`Custom`); `none` when the tag is out of range or is the `Custom` tag. -/
def unitOfTag : Nat → Option InstructionError
  | 0 => some .GenericError
  | 1 => some .InvalidArgument
  | 2 => some .InvalidInstructionData
  | 3 => some .InvalidAccountData
  | 4 => some .AccountDataTooSmall
  | 5 => some .InsufficientFunds
  | 6 => some .IncorrectProgramId
  | 7 => some .MissingRequiredSignature
  | 8 => some .AccountAlreadyInitialized
  | 9 => some .UninitializedAccount
  | 10 => some .UnbalancedInstruction
  | 11 => some .ModifiedProgramId
  | 12 => some .ExternalAccountLamportSpend
  | 13 => some .ExternalAccountDataModified
  | 14 => some .ReadonlyLamportChange
  | 15 => some .ReadonlyDataModified
  | 16 => some .DuplicateAccountIndex
  | 17 => some .ExecutableModified
  | 18 => some .RentEpochModified
  | 19 => some .NotEnoughAccountKeys
  | 20 => some .AccountDataSizeChanged
  | 21 => some .AccountNotExecutable
  | 22 => some .AccountBorrowFailed
  | 23 => some .AccountBorrowOutstanding
  | 24 => some .DuplicateAccountOutOfSync
  | 26 => some .InvalidError
  | 27 => some .ExecutableDataModified
  | 28 => some .ExecutableLamportChange
  | 29 => some .ExecutableAccountNotRentExempt
  | 30 => some .UnsupportedProgramId
  | 31 => some .CallDepth
  | 32 => some .MissingAccount
  | 33 => some .ReentrancyNotAllowed
  | 34 => some .MaxSeedLengthExceeded
  | 35 => some .InvalidSeeds
  | 36 => some .InvalidRealloc
  | 37 => some .ComputeBudgetExceeded
  | 38 => some .PrivilegeEscalation
  | 39 => some .ProgramEnvironmentSetupFailure
  | 40 => some .ProgramFailedToComplete
  | 41 => some .ProgramFailedToCompile
  | 42 => some .Immutable
  | 43 => some .IncorrectAuthority
  | 44 => some .BorshIoError
  | 45 => some .AccountNotRentExempt
  | 46 => some .InvalidAccountOwner
  | 47 => some .ArithmeticOverflow
  | 48 => some .UnsupportedSysvar
  | 49 => some .IllegalOwner
  | 50 => some .MaxAccountsDataAllocationsExceeded
  | 51 => some .MaxAccountsExceeded
  | 52 => some .MaxInstructionTraceLengthExceeded
  | 53 => some .BuiltinProgramsMustConsumeComputeUnits
  | _ => none

/-- `true` exactly on the `Custom` variant
(`matches!(e, InstructionError::Custom(_))`). -/
def isCustom : InstructionError → Bool
  | .Custom _ => true
  | _ => false

/-- An injective numeric key (tag plus scaled `Custom` payload), used to
decide equality without a quadratic case split. -/
def key : InstructionError → Nat
  | .Custom code => 54 * code + 25
  | e => e.tagOf

/-- Left inverse of `key`. -/
def ofKey (n : Nat) : InstructionError :=
  if n < 54 then (unitOfTag n).getD (.Custom 0) else .Custom (n / 54)

lemma ofKey_key : ∀ e : InstructionError, ofKey e.key = e := by
  intro e
  cases e
  case Custom code =>
    by_cases hc : code = 0
    · subst hc; rfl
    · rw [key, ofKey, if_neg (by omega)]
      rw [Nat.mul_add_div (by norm_num)]
      simp [Nat.div_eq_of_lt]
  all_goals rfl

instance : DecidableEq InstructionError := fun a b =>
  decidable_of_iff (a.key = b.key)
    ⟨fun h => by
        have h2 := congrArg ofKey h
        rwa [ofKey_key, ofKey_key] at h2,
      fun h => by rw [h]⟩

end InstructionError

/-! Little-endian byte helpers (`u32::to_le_bytes`, `u64::to_le_bytes`,
`i32::from_le_bytes`). -/

/-- The `len` little-endian bytes of `n` (modelling `to_le_bytes`). -/
def natToLeBytes (len n : Nat) : List Nat :=
  (List.range len).map fun i => n / 256 ^ i % 256

/-- Read a little-endian byte list as a natural number. -/
def leBytesToNat (bytes : List Nat) : Nat :=
  bytes.foldr (fun b acc => b % 256 + 256 * acc) 0

/-- Reinterpret a `u32` value as an `i32` (`i32::from_le_bytes`). -/
def u32AsI32 (n : Nat) : Int :=
  if n < 2 ^ 31 then (n : Int) else (n : Int) - 2 ^ 32

/-- `bincode::serialize` of an `InstructionError`: 4-byte little-endian
variant tag followed by the variant payload (a `u32` for `Custom`, nothing
for the other variants). -/
def bincodeSerializeInstrErr (e : InstructionError) : List Nat :=
  natToLeBytes 4 e.tagOf ++
    (match e with
      | .Custom code => natToLeBytes 4 (code % 2 ^ 32)
      | _ => [])

/-- `bincode::deserialize::<InstructionError>` from an 8-byte buffer: read
the 4-byte little-endian variant tag; for `Custom`, read the `u32` payload
from the remaining 4 bytes; unit variants ignore trailing bytes (bincode's
default configuration allows trailing bytes); unknown tags fail. -/
def bincodeDeserializeInstrErr (bytes : List Nat) : Option InstructionError :=
  let tag := leBytesToNat (bytes.take 4)
  if tag = 25 then
    if bytes.length < 8 then none
    else some (.Custom (leBytesToNat ((bytes.drop 4).take 4)))
  else
    InstructionError.unitOfTag tag

/-- `fn instr_err_to_num(error: &InstructionError) -> i32`
(`src/harness/src/fuzz/firedancer.rs`): serialize the error with bincode,
reinterpret the first four little-endian bytes as an `i32`, add one. -/
def instr_err_to_num (error : InstructionError) : Int :=
  let serializedErr := bincodeSerializeInstrErr error
  u32AsI32 (leBytesToNat (serializedErr.take 4)) + 1

/-- `fn num_to_instr_err(num: i32, custom_code: u32) -> InstructionError`
(`src/harness/src/fuzz/firedancer.rs`): cast `num - 1` to `u64`, deserialize
its little-endian bytes with bincode (`none` models the `unwrap` panic), and
substitute `custom_code` when the decoded variant is `Custom` and
`custom_code != 0`. -/
def num_to_instr_err (num : Int) (customCode : Nat) : Option InstructionError :=
  let val : Nat := ((num - 1).emod (2 ^ 64)).toNat
  let le := natToLeBytes 8 val
  (bincodeDeserializeInstrErr le).map fun deser =>
    if customCode ≠ 0 ∧ deser.isCustom then .Custom customCode else deser

/-- The custom code recorded alongside a Format B error
(`build_fixture_effects`: `program_custom_code` is the code of a
`Custom` error and `0` otherwise). -/
def customCodeOf : InstructionError → Nat
  | .Custom code => code
  | _ => 0

/-! ## Result model (`src/result/src/types.rs`)

`ProgramError` is an external SDK enum; claims never inspect it beyond
(in)equality, so it is modelled as an opaque `Nat`.  The conversion
`ProgramError::try_from(InstructionError)` is an external partial map and is
therefore a parameter of the model (`Env.tryFromInstructionError`). -/

/-- `trezoa_program_error::ProgramError` (external, opaque). -/
abbrev ProgramError := Nat

/-- `mollusk_svm_result::ProgramResult`. -/
inductive ProgramResult where
  | Success
  | Failure (err : ProgramError)
  | UnknownError (err : InstructionError)
  deriving Repr, DecidableEq

namespace ProgramResult

/-- `ProgramResult::is_ok`. -/
def isOk : ProgramResult → Bool
  | .Success => true
  | _ => false

/-- `ProgramResult::is_err`. -/
def isErr (r : ProgramResult) : Bool := !r.isOk

end ProgramResult

/-- `impl From<Result<(), InstructionError>> for ProgramResult`:
`Ok(())` becomes `Success`; `Err(e)` becomes `Failure` when
`ProgramError::try_from(e)` succeeds and `UnknownError(e)` otherwise.
The raw result is modelled as `Option InstructionError` (`none` = `Ok(())`). -/
def toProgramResult (tryFromInstructionError : InstructionError → Option ProgramError) :
    Option InstructionError → ProgramResult
  | none => .Success
  | some e =>
    match tryFromInstructionError e with
    | some p => .Failure p
    | none => .UnknownError e

/-- `trezoa_transaction_status_client_types::InnerInstruction`: a compiled
instruction (`u8` program index, `u8` transaction-account indices, data)
plus an optional `u32` stack height. -/
structure InnerInstruction where
  programIdIndex : Nat
  accounts : List Nat
  data : List Nat
  stackHeight : Option Nat
  deriving Repr, DecidableEq

/-- `mollusk_svm_result::InstructionResult`.  The sanitized message is
opaque to the core; the model keeps the only part the harness exposes,
its ordered `account_keys`. -/
structure InstructionResult where
  computeUnitsConsumed : Nat
  executionTime : Nat
  programResult : ProgramResult
  /-- `raw_result : Result<(), InstructionError>`; `none` is `Ok(())`. -/
  rawResult : Option InstructionError
  returnData : List Nat
  resultingAccounts : List (Pubkey × Account)
  innerInstructions : List InnerInstruction
  message : Option (List Pubkey)
  deriving Repr, DecidableEq

/-- `impl Default for InstructionResult`. -/
def default_instruction_result : InstructionResult :=
  { computeUnitsConsumed := 0
    executionTime := 0
    programResult := .Success
    rawResult := none
    returnData := []
    resultingAccounts := []
    innerInstructions := []
    message := none }

/-- `InstructionResult::absorb` (`src/result/src/types.rs`): add CU and
execution time, replace every other field with `other`'s. -/
def InstructionResult.absorb (self other : InstructionResult) : InstructionResult :=
  { computeUnitsConsumed := self.computeUnitsConsumed + other.computeUnitsConsumed
    executionTime := self.executionTime + other.executionTime
    programResult := other.programResult
    rawResult := other.rawResult
    returnData := other.returnData
    resultingAccounts := other.resultingAccounts
    innerInstructions := other.innerInstructions
    message := other.message }

/-- `mollusk_svm_result::TransactionProgramResult`. -/
inductive TransactionProgramResult where
  | Success
  | Failure (index : Nat) (err : ProgramError)
  | UnknownError (index : Nat) (err : InstructionError)
  deriving Repr, DecidableEq

/-- `TransactionProgramResult::is_err`. -/
def TransactionProgramResult.isErr : TransactionProgramResult → Bool
  | .Success => false
  | _ => true

/-- `mollusk_svm_result::TransactionResult`. -/
structure TransactionResult where
  computeUnitsConsumed : Nat
  executionTime : Nat
  programResult : TransactionProgramResult
  /-- `raw_result : Result<(), TransactionError>`; Mollusk only produces the
  `TransactionError::InstructionError(index, err)` variant, so the error case
  is modelled as the pair `(index, err)`. -/
  rawResult : Option (Nat × InstructionError)
  returnData : List Nat
  resultingAccounts : List (Pubkey × Account)
  innerInstructions : List (List InnerInstruction)
  message : Option (List Pubkey)
  deriving Repr, DecidableEq

/-! ## The execution-engine boundary

`Mollusk::process_transaction_message` drives the external invoke context
over a sanitized message inside one transaction context and produces a
`MessageResult` while mutating the transaction context's accounts in place.
The engine (prepare/process-instruction/precompile, return data, trace) is
out of scope per the spec, so the whole of `process_transaction_message` is
the model's opaque boundary: a function from the message (instructions plus
compiled account keys), the transaction-account vector, and the top-level
instruction index to a `MessageResult` and the post-execution transaction
accounts.  A `TransactionContext` owns a fixed ordered set of transaction
accounts, which is the one structural fact the model records (`keysFixed`). -/

/-- `struct MessageResult` (`src/harness/src/lib.rs`). -/
structure MessageResult where
  computeUnitsConsumed : Nat
  executionTime : Nat
  /-- `raw_result : Result<(), TransactionError>`; Mollusk only constructs
  `TransactionError::InstructionError(index, err)`, modelled as the pair. -/
  rawResult : Option (Nat × InstructionError)
  returnData : List Nat
  innerInstructions : List (List InnerInstruction)
  deriving Repr, DecidableEq

/-- The opaque execution engine (see the section comment above). -/
structure Engine where
  run : List Instruction → List Pubkey → List (Pubkey × Account) → Nat →
    MessageResult × List (Pubkey × Account)
  /-- Executing a message never changes the ordered key set of the
  transaction context. -/
  keysFixed : ∀ ixs keys txAccounts topIndex,
    ((run ixs keys txAccounts topIndex).2).map Prod.fst = txAccounts.map Prod.fst

/-- The external collaborators of the harness, bundled: message compilation
(`trezoa_message`), the instructions-sysvar serializer, the loader-key lookup
backed by the program cache (`Mollusk::get_loader_key`; `none` models the
`ProgramNotCached` panic), the external `ProgramError::try_from`, and the
execution engine. -/
structure Env where
  messageKeys : List Instruction → List Pubkey
  constructInstructionsData : List Instruction → List Nat
  getLoaderKeyFn : Pubkey → Option Pubkey
  tryFromInstructionError : InstructionError → Option ProgramError
  engine : Engine

/-! ## Account compilation
(`Mollusk::get_account_fallbacks`, `src/harness/src/compile_accounts.rs`) -/

/-- First account in an ordered account vector with the given key
(`accounts.iter().find(|(k, _)| k == key)`). -/
def lookupAccount (accounts : List (Pubkey × Account)) (key : Pubkey) : Option Account :=
  (accounts.find? (fun pa => pa.1 == key)).map (·.2)

/-- `HashMap::insert` on an association-list model of a keyed map (replace
the existing entry or append). -/
def insertReplace (m : List (Pubkey × Account)) (k : Pubkey) (v : Account) :
    List (Pubkey × Account) :=
  if m.any (·.1 == k) then m.map (fun p => if p.1 == k then (k, v) else p)
  else m ++ [(k, v)]

/-- The program stub inserted by `get_account_fallbacks`:
`Account { owner: loader_key, executable: true, ..Default::default() }`. -/
def loaderStub (loaderKey : Pubkey) : Account :=
  { Account.default0 with owner := loaderKey, executable := true }

/-- `crate::instructions_sysvar::keyed_account`'s account value: the
canonical serialization of the instruction set (external serializer,
`Env.constructInstructionsData`) owned by the sysvar owner. -/
def instructionsSysvarAccount (env : Env) (instructions : List Instruction) : Account :=
  { lamports := 0
    data := env.constructInstructionsData instructions
    owner := SYSVAR_OWNER_ID
    executable := false
    rentEpoch := 0 }

/-- `Mollusk::get_account_fallbacks` (`src/harness/src/lib.rs`): for every
top-level target program id not among the caller's account keys, insert an
executable loader-owned stub (panicking — `none` — when the program is not
cached); then, when the caller did not supply the instructions sysvar,
insert its synthesized account. -/
def get_account_fallbacks (env : Env) (allProgramIds : List Pubkey)
    (allInstructions : List Instruction) (accounts : List (Pubkey × Account)) :
    Option (List (Pubkey × Account)) := do
  let withPrograms ← allProgramIds.foldlM
    (fun fallbacks programId =>
      if accounts.any (·.1 == programId) then pure fallbacks
      else do
        let loaderKey ← env.getLoaderKeyFn programId
        pure (insertReplace fallbacks programId (loaderStub loaderKey)))
    ([] : List (Pubkey × Account))
  if accounts.any (·.1 == INSTRUCTIONS_SYSVAR_ID) then pure withPrograms
  else pure (insertReplace withPrograms INSTRUCTIONS_SYSVAR_ID
    (instructionsSysvarAccount env allInstructions))

/-- The per-key closure of `build_transaction_accounts`
(`src/harness/src/compile_accounts.rs`): resolve one transaction account for
one message account key.  Program-id keys: caller-provided account, else
fallback, else a default executable account.  The instructions-sysvar key:
caller-provided, else fallback, else the synthesized sysvar account.  Any
other key: caller-provided, else fallback, else the `AccountMissing` panic
(`none`). -/
def resolve_transaction_account (env : Env) (accounts : List (Pubkey × Account))
    (allInstructions : List Instruction) (fallbackAccounts : List (Pubkey × Account))
    (key : Pubkey) : Option (Pubkey × Account) :=
  let programIds := allInstructions.map (·.programId)
  if programIds.contains key then
      match lookupAccount accounts key with
      | some provided => some (key, provided)
      | none =>
        match lookupAccount fallbackAccounts key with
        | some fallback => some (key, fallback)
        | none => some (key, { Account.default0 with executable := true })
    else if key == INSTRUCTIONS_SYSVAR_ID then
      match lookupAccount accounts key with
      | some provided => some (key, provided)
      | none =>
        match lookupAccount fallbackAccounts key with
        | some fallback => some (key, fallback)
        | none => some (key, instructionsSysvarAccount env allInstructions)
    else
      match lookupAccount accounts key with
      | some provided => some (key, provided)
      | none =>
        match lookupAccount fallbackAccounts key with
        | some fallback => some (key, fallback)
        | none => none

/-- `build_transaction_accounts` (`src/harness/src/compile_accounts.rs`):
resolve one transaction account per message account key, in key order. -/
def build_transaction_accounts (env : Env) (accountKeys : List Pubkey)
    (accounts : List (Pubkey × Account)) (allInstructions : List Instruction)
    (fallbackAccounts : List (Pubkey × Account)) :
    Option (List (Pubkey × Account)) :=
  accountKeys.mapM (resolve_transaction_account env accounts allInstructions fallbackAccounts)

/-- `compile_accounts` (`src/harness/src/compile_accounts.rs`): build the
legacy message from the instructions (external sanitization; its ordered
`account_keys` are `env.messageKeys instructions`) and the aligned
transaction-account vector. -/
def compile_accounts (env : Env) (instructions : List Instruction)
    (accounts : List (Pubkey × Account)) (fallbackAccounts : List (Pubkey × Account)) :
    Option (List Pubkey × List (Pubkey × Account)) :=
  let accountKeys := env.messageKeys instructions
  (build_transaction_accounts env accountKeys accounts instructions fallbackAccounts).map
    (fun txAccounts => (accountKeys, txAccounts))

/-! ## Result deconstruction and the facade
(`Mollusk::process_instruction` and friends, `src/harness/src/lib.rs`) -/

/-- `Mollusk::deconstruct_resulting_accounts`: for each original account, in
order, copy its post-execution state out of the transaction context
(`find_index_of_account` + borrow) when present, otherwise clone the input. -/
def deconstruct_resulting_accounts (transactionContext : List (Pubkey × Account))
    (originalAccounts : List (Pubkey × Account)) : List (Pubkey × Account) :=
  originalAccounts.map fun pa =>
    match transactionContext.find? (·.1 == pa.1) with
    | some entry => (pa.1, entry.2)
    | none => (pa.1, pa.2)

/-- `MessageResult::extract_ix_err` applied through
`raw_result.map_err(...)`: keep the instruction error of the
`TransactionError::InstructionError` pair. -/
def extract_ix_err (rawResult : Option (Nat × InstructionError)) : Option InstructionError :=
  rawResult.map Prod.snd

/-- `MessageResult::extract_txn_program_result`. -/
def extract_txn_program_result (tryFromInstructionError : InstructionError → Option ProgramError) :
    Option (Nat × InstructionError) → TransactionProgramResult
  | none => .Success
  | some (index, ixErr) =>
    match tryFromInstructionError ixErr with
    | some programError => .Failure index programError
    | none => .UnknownError index ixErr

/-- `Mollusk::process_instruction` (`src/harness/src/lib.rs`): compute
fallbacks, compile accounts, execute the message (top-level index 0), then
deconstruct resulting accounts on success or return the inputs on failure;
inner instructions are the first trace group. -/
def process_instruction (env : Env) (instruction : Instruction)
    (accounts : List (Pubkey × Account)) : Option InstructionResult := do
  let fallbackAccounts ← get_account_fallbacks env [instruction.programId] [instruction] accounts
  let (accountKeys, transactionAccounts) ←
    compile_accounts env [instruction] accounts fallbackAccounts
  let (messageResult, finalContext) :=
    env.engine.run [instruction] accountKeys transactionAccounts 0
  let resultingAccounts :=
    if messageResult.rawResult.isNone then
      deconstruct_resulting_accounts finalContext accounts
    else accounts
  let rawResult := extract_ix_err messageResult.rawResult
  pure
    { computeUnitsConsumed := messageResult.computeUnitsConsumed
      executionTime := messageResult.executionTime
      programResult := toProgramResult env.tryFromInstructionError rawResult
      rawResult := rawResult
      returnData := messageResult.returnData
      resultingAccounts := resultingAccounts
      innerInstructions := messageResult.innerInstructions.getD 0 []
      message := some accountKeys }

/-- `Mollusk::process_instruction_chain_element`: like
`process_instruction`, but the fallback map is supplied by the caller, the
transaction context carries the chain element's top-level instruction index,
and the inner-instruction group is selected by that index
(`.nth(index).unwrap_or_default()`). -/
def process_instruction_chain_element (env : Env) (index : Nat)
    (instruction : Instruction) (accounts : List (Pubkey × Account))
    (fallbackAccounts : List (Pubkey × Account)) : Option InstructionResult := do
  let (accountKeys, transactionAccounts) ←
    compile_accounts env [instruction] accounts fallbackAccounts
  let (messageResult, finalContext) :=
    env.engine.run [instruction] accountKeys transactionAccounts index
  let resultingAccounts :=
    if messageResult.rawResult.isNone then
      deconstruct_resulting_accounts finalContext accounts
    else accounts
  let rawResult := extract_ix_err messageResult.rawResult
  pure
    { computeUnitsConsumed := messageResult.computeUnitsConsumed
      executionTime := messageResult.executionTime
      programResult := toProgramResult env.tryFromInstructionError rawResult
      rawResult := rawResult
      returnData := messageResult.returnData
      resultingAccounts := resultingAccounts
      innerInstructions := messageResult.innerInstructions.getD index []
      message := some accountKeys }

/-- The loop body of `Mollusk::process_instruction_chain`: run each element
on the composite's resulting accounts, absorb it, and break on the first
error. -/
def chainLoop (env : Env) (fallbackAccounts : List (Pubkey × Account)) :
    List Instruction → Nat → InstructionResult → Option InstructionResult
  | [], _, composite => some composite
  | instruction :: rest, index, composite => do
    let thisResult ← process_instruction_chain_element env index instruction
      composite.resultingAccounts fallbackAccounts
    let composite := composite.absorb thisResult
    if composite.programResult.isErr then some composite
    else chainLoop env fallbackAccounts rest (index + 1) composite

/-- `Mollusk::process_instruction_chain` (`src/harness/src/lib.rs`). -/
def process_instruction_chain (env : Env) (instructions : List Instruction)
    (accounts : List (Pubkey × Account)) : Option InstructionResult := do
  let fallbackAccounts ← get_account_fallbacks env (instructions.map (·.programId))
    instructions accounts
  chainLoop env fallbackAccounts instructions 0
    { default_instruction_result with resultingAccounts := accounts }

/-- `Mollusk::process_transaction_instructions` (`src/harness/src/lib.rs`):
all instructions in one sanitized message and one transaction context. -/
def process_transaction_instructions (env : Env) (instructions : List Instruction)
    (accounts : List (Pubkey × Account)) : Option TransactionResult := do
  let fallbackAccounts ← get_account_fallbacks env (instructions.map (·.programId))
    instructions accounts
  let (accountKeys, transactionAccounts) ←
    compile_accounts env instructions accounts fallbackAccounts
  let (messageResult, finalContext) :=
    env.engine.run instructions accountKeys transactionAccounts 0
  let resultingAccounts :=
    if messageResult.rawResult.isNone then
      deconstruct_resulting_accounts finalContext accounts
    else accounts
  pure
    { computeUnitsConsumed := messageResult.computeUnitsConsumed
      executionTime := messageResult.executionTime
      programResult := extract_txn_program_result env.tryFromInstructionError
        messageResult.rawResult
      rawResult := messageResult.rawResult
      returnData := messageResult.returnData
      resultingAccounts := resultingAccounts
      innerInstructions := messageResult.innerInstructions
      message := some accountKeys }

/-! ## Inner-instruction deconstruction
(`Mollusk::deconstruct_inner_instructions`, `src/harness/src/lib.rs`) -/

/-- One entry of the engine's instruction trace
(`TransactionContext::take_instruction_trace`): the nesting level (`usize`),
the program's transaction-account index, the instruction data, and the
instruction accounts' transaction indices. -/
structure TraceEntry where
  nestingLevel : Nat
  programAccountIndexInTx : Nat
  instructionData : List Nat
  instructionAccounts : List Nat
  deriving Repr, DecidableEq

/-- `nesting_level.saturating_add(1)` on `usize`. -/
def TraceEntry.stackHeightOf (e : TraceEntry) : Nat :=
  min (e.nestingLevel + 1) (2 ^ 64 - 1)

/-- The `InnerInstruction` record built for a trace entry
(`CompiledInstruction::new_from_raw_parts` with `as u8` index truncation;
`u32::try_from(stack_height).ok()`). -/
def TraceEntry.toInner (e : TraceEntry) : InnerInstruction :=
  { programIdIndex := e.programAccountIndexInTx % 256
    accounts := e.instructionAccounts.map (· % 256)
    data := e.instructionData
    stackHeight := if e.stackHeightOf < 2 ^ 32 then some e.stackHeightOf else none }

/-- Append an element to the last group of a list of groups; with no group
present the element is dropped (`all_inner_instructions.last_mut()` is
`None`). -/
def appendToLast : List (List InnerInstruction) → InnerInstruction → List (List InnerInstruction)
  | [], _ => []
  | [g], x => [g ++ [x]]
  | g :: rest, x => g :: appendToLast rest x

/-- `Mollusk::deconstruct_inner_instructions`: walk the trace in order; an
entry at stack height 1 (nesting level 0) opens a new empty group; any other
entry is recorded into the current (last) group. -/
def deconstruct_inner_instructions (ixTrace : List TraceEntry) :
    List (List InnerInstruction) :=
  ixTrace.foldl
    (fun allInnerInstructions e =>
      if e.stackHeightOf = 1 then allInnerInstructions ++ [[]]
      else appendToLast allInnerInstructions e.toInner)
    []

/-! ## The stateful context
(`MolluskContext::consume_mollusk_result`, `src/harness/src/lib.rs`) -/

/-- The pluggable account store (`trait AccountStore`), modelled by its
keyed-lookup behaviour. -/
def Store := Pubkey → Option Account

/-- `AccountStore::store_account`. -/
def storeAccount (store : Store) (pubkey : Pubkey) (account : Account) : Store :=
  fun k => if k = pubkey then some account else store k

/-- `MolluskContext::consume_mollusk_result`: when the program result is
`Success`, write back every resulting account; otherwise leave the store
untouched. -/
def consume_mollusk_result (store : Store) (result : InstructionResult) : Store :=
  if result.programResult.isOk then
    result.resultingAccounts.foldl (fun s pa => storeAccount s pa.1 pa.2) store
  else store

/-! ## The Compare engine (`src/result/src/compare.rs`) -/

/-- `mollusk_svm_result::Compare`: selectors for pairwise result
comparison. -/
inductive Compare where
  | ComputeUnits
  | ExecutionTime
  | ProgramResult
  | ReturnData
  | AllResultingAccounts (data executable lamports owner space : Bool)
  | OnlyResultingAccounts (addresses : List Pubkey)
      (data executable lamports owner space : Bool)
  | AllResultingAccountsExcept (ignoreAddresses : List Pubkey)
      (data executable lamports owner space : Bool)
  deriving Repr, DecidableEq

namespace Compare

/-- `Compare::all_resulting_accounts`: every per-field toggle enabled. -/
def all_resulting_accounts : Compare :=
  .AllResultingAccounts true true true true true

/-- `Compare::everything_but_cus` (`src/result/src/compare.rs`): the
`ExecutionTime` entry is commented out in the source
("Intentionally omitted for now"). -/
def everything_but_cus : List Compare :=
  [ .ProgramResult,
    .ReturnData,
    all_resulting_accounts ]

/-- `Compare::everything` (`src/result/src/compare.rs`): the
`ExecutionTime` entry is commented out in the source
("Intentionally omitted for now"). -/
def everything : List Compare :=
  [ .ComputeUnits,
    .ProgramResult,
    .ReturnData,
    all_resulting_accounts ]

end Compare

/-! ## Program-cache account stubs (`src/harness/src/program.rs`) -/

/-- `mollusk_svm::program::CacheEntry`. -/
structure CacheEntry where
  loaderKey : Pubkey
  elfBytes : Option (List Nat)
  deriving Repr, DecidableEq

/-- `Rent::default().minimum_balance(data_len)` — external SDK rent math,
modelled from the default rent parameters (128-byte storage overhead,
3480 lamports per byte-year, 2-year exemption threshold). -/
def minimumBalance (dataLen : Nat) : Nat :=
  (128 + dataLen) * 3480 * 2

/-- Bytes of the builtin stub name `"I'm a stub!"` used by the cache's
keyed-account synthesis. -/
def builtinStubNameBytes : List Nat :=
  [73, 39, 109, 32, 97, 32, 115, 116, 117, 98, 33]

/-- `create_keyed_account_for_builtin_program` specialised to the stub name:
name bytes as data, rent-exempt lamports, native-loader owner, executable. -/
def builtinStubAccount : Account :=
  { lamports := minimumBalance builtinStubNameBytes.length
    data := builtinStubNameBytes
    owner := NATIVE_LOADER
    executable := true
    rentEpoch := 0 }

/-- `create_program_account_loader_v1` (`src/harness/src/program.rs`). -/
def create_program_account_loader_v1 (elf : List Nat) : Account :=
  { lamports := minimumBalance elf.length
    data := elf
    owner := LOADER_V1
    executable := true
    rentEpoch := 0 }

/-- `create_program_account_loader_v2` (`src/harness/src/program.rs`). -/
def create_program_account_loader_v2 (elf : List Nat) : Account :=
  { lamports := minimumBalance elf.length
    data := elf
    owner := LOADER_V2
    executable := true
    rentEpoch := 0 }

/-- `create_program_account_loader_v3` (`src/harness/src/program.rs`): a
record pointing at the program-data address derived from the program id
(external PDA derivation and bincode layout, modelled opaquely as a function
of the program id). -/
def create_program_account_loader_v3 (programId : Pubkey) : Account :=
  { lamports := minimumBalance (36 + 0)
    data := [2, 0, 0, 0] ++ natToLeBytes 32 programId
    owner := LOADER_V3
    executable := true
    rentEpoch := 0 }

/-- `create_program_account_loader_v4` (`src/harness/src/program.rs`): the
fixed-size `LoaderV4State` prefix followed by the ELF bytes. -/
def create_program_account_loader_v4 (elf : List Nat) : Account :=
  { lamports := minimumBalance (48 + elf.length)
    data := natToLeBytes 48 0 ++ elf
    owner := LOADER_V4
    executable := true
    rentEpoch := 0 }

/-- The account built for one entries-cache record, shared by
`get_all_keyed_program_accounts` and `maybe_create_program_account`; `none`
models the `panic!("Invalid loader key")` arm.  For loader v1/v2/v4 the
source passes an empty slice (`&[]`) — not the cached ELF bytes. -/
def programAccountForEntry (pubkey : Pubkey) (cacheEntry : CacheEntry) : Option Account :=
  if cacheEntry.loaderKey = NATIVE_LOADER then some builtinStubAccount
  else if cacheEntry.loaderKey = LOADER_V1 then some (create_program_account_loader_v1 [])
  else if cacheEntry.loaderKey = LOADER_V2 then some (create_program_account_loader_v2 [])
  else if cacheEntry.loaderKey = LOADER_V3 then some (create_program_account_loader_v3 pubkey)
  else if cacheEntry.loaderKey = LOADER_V4 then some (create_program_account_loader_v4 [])
  else none

/-- `ProgramCache::get_all_keyed_program_accounts`
(`src/harness/src/program.rs`); the entries cache is a `HashMap`, modelled
as an association list (the claims only use per-element facts, never
iteration order).  `none` models the invalid-loader panic. -/
def get_all_keyed_program_accounts (entriesCache : List (Pubkey × CacheEntry)) :
    Option (List (Pubkey × Account)) :=
  entriesCache.mapM fun pe =>
    (programAccountForEntry pe.1 pe.2).map fun account => (pe.1, account)

/-- `ProgramCache::maybe_create_program_account`
(`src/harness/src/program.rs`).  The outer `none` models the
invalid-loader panic; `some none` is a cache miss. -/
def maybe_create_program_account (entriesCache : List (Pubkey × CacheEntry))
    (pubkey : Pubkey) : Option (Option Account) :=
  match (entriesCache.find? (·.1 == pubkey)).map (·.2) with
  | none => some none
  | some cacheEntry => (programAccountForEntry pubkey cacheEntry).map some

/-! ## Helper lemmas -/

lemma resolve_transaction_account_fst (env accounts allInstructions fallbackAccounts key a)
    (h : resolve_transaction_account env accounts allInstructions fallbackAccounts key = some a) :
    a.1 = key := by
  simp only [resolve_transaction_account] at h
  repeat' split at h
  all_goals (try (injection h with h))
  all_goals (try (subst h))
  all_goals (try rfl)
  all_goals (simp at h)

lemma option_mapM'_fst {α γ : Type} (f : α → Option (α × γ))
    (hf : ∀ k a, f k = some a → a.1 = k) :
    ∀ (l : List α) (tx : List (α × γ)), l.mapM' f = some tx → tx.map Prod.fst = l := by
  intro l
  induction l with
  | nil => intro tx h; simp [List.mapM'] at h; simp [← h]
  | cons k rest ih =>
    intro tx h
    simp only [List.mapM'] at h
    cases ha : f k with
    | none => rw [ha] at h; simp at h
    | some a =>
      rw [ha] at h
      cases hrest : rest.mapM' f with
      | none => rw [hrest] at h; simp at h
      | some txRest =>
        rw [hrest] at h
        simp only [Option.bind_eq_bind, Option.some_bind, Option.pure_def,
          Option.some.injEq] at h
        subst h
        simp [hf k a ha, ih txRest hrest]

lemma build_transaction_accounts_map_fst (env accountKeys accounts allInstructions
    fallbackAccounts tx)
    (h : build_transaction_accounts env accountKeys accounts allInstructions fallbackAccounts
      = some tx) :
    tx.map Prod.fst = accountKeys := by
  unfold build_transaction_accounts at h
  rw [← List.mapM'_eq_mapM] at h
  exact option_mapM'_fst _ (resolve_transaction_account_fst env accounts allInstructions
    fallbackAccounts) accountKeys tx h

lemma deconstruct_map_fst (transactionContext originalAccounts) :
    (deconstruct_resulting_accounts transactionContext originalAccounts).map Prod.fst
      = originalAccounts.map Prod.fst := by
  induction originalAccounts with
  | nil => rfl
  | cons pa rest ih =>
    simp only [deconstruct_resulting_accounts, List.map_cons] at *
    cases h : transactionContext.find? (·.1 == pa.1) <;> simp [h, ih]

lemma process_instruction_shape (env ix accounts r)
    (h : process_instruction env ix accounts = some r) :
    ∃ fb tx,
      get_account_fallbacks env [ix.programId] [ix] accounts = some fb ∧
      build_transaction_accounts env (env.messageKeys [ix]) accounts [ix] fb = some tx ∧
      r.rawResult = extract_ix_err (env.engine.run [ix] (env.messageKeys [ix]) tx 0).1.rawResult ∧
      r.resultingAccounts =
        (if (env.engine.run [ix] (env.messageKeys [ix]) tx 0).1.rawResult.isNone
          then deconstruct_resulting_accounts
            (env.engine.run [ix] (env.messageKeys [ix]) tx 0).2 accounts
          else accounts) := by
  unfold process_instruction at h
  cases hfb : get_account_fallbacks env [ix.programId] [ix] accounts with
  | none => rw [hfb] at h; simp at h
  | some fb =>
    rw [hfb] at h
    simp only [compile_accounts, Option.bind_eq_bind, Option.some_bind] at h
    cases htx : build_transaction_accounts env (env.messageKeys [ix]) accounts [ix] fb with
    | none => rw [htx] at h; simp at h
    | some tx =>
      rw [htx] at h
      simp only [Option.map_some', Option.bind_eq_bind, Option.some_bind, Option.pure_def,
        Option.some.injEq] at h
      refine ⟨fb, tx, rfl, htx, ?_, ?_⟩ <;> rw [← h]

lemma process_transaction_instructions_shape (env ixs accounts tr)
    (h : process_transaction_instructions env ixs accounts = some tr) :
    ∃ fb tx,
      get_account_fallbacks env (ixs.map (·.programId)) ixs accounts = some fb ∧
      build_transaction_accounts env (env.messageKeys ixs) accounts ixs fb = some tx ∧
      tr.rawResult = (env.engine.run ixs (env.messageKeys ixs) tx 0).1.rawResult ∧
      tr.resultingAccounts =
        (if (env.engine.run ixs (env.messageKeys ixs) tx 0).1.rawResult.isNone
          then deconstruct_resulting_accounts
            (env.engine.run ixs (env.messageKeys ixs) tx 0).2 accounts
          else accounts) := by
  unfold process_transaction_instructions at h
  cases hfb : get_account_fallbacks env (ixs.map (·.programId)) ixs accounts with
  | none => rw [hfb] at h; simp at h
  | some fb =>
    rw [hfb] at h
    simp only [compile_accounts, Option.bind_eq_bind, Option.some_bind] at h
    cases htx : build_transaction_accounts env (env.messageKeys ixs) accounts ixs fb with
    | none => rw [htx] at h; simp at h
    | some tx =>
      rw [htx] at h
      simp only [Option.map_some', Option.bind_eq_bind, Option.some_bind, Option.pure_def,
        Option.some.injEq] at h
      refine ⟨fb, tx, rfl, htx, ?_, ?_⟩ <;> rw [← h]

/-! ## Sample fixtures used by witnesses -/

/-- A sample caller-provided account. -/
def sampleAccount : Account :=
  { lamports := 5, data := [1, 2], owner := 0, executable := false, rentEpoch := 0 }

/-- A sample instruction targeting program `1` and touching account `2`. -/
def sampleIx : Instruction :=
  { programId := 1
    accounts := [{ pubkey := 2, isSigner := true, isWritable := true }]
    data := [9] }

/-- A successful engine outcome. -/
def okMessageResult : MessageResult :=
  { computeUnitsConsumed := 11, executionTime := 3, rawResult := none,
    returnData := [7], innerInstructions := [] }

/-- A failing engine outcome. -/
def errMessageResult : MessageResult :=
  { computeUnitsConsumed := 4, executionTime := 2,
    rawResult := some (0, .InsufficientFunds), returnData := [], innerInstructions := [] }

/-- An engine that succeeds and leaves the context unchanged. -/
def okEngine : Engine :=
  { run := fun _ _ txAccounts _ => (okMessageResult, txAccounts)
    keysFixed := fun _ _ _ _ => rfl }

/-- An engine that fails and leaves the context unchanged. -/
def errEngine : Engine :=
  { run := fun _ _ txAccounts _ => (errMessageResult, txAccounts)
    keysFixed := fun _ _ _ _ => rfl }

/-- A sample environment around `okEngine`. -/
def sampleEnvOk : Env :=
  { messageKeys := fun ixs => ixs.map (·.programId)
    constructInstructionsData := fun _ => [3, 3]
    getLoaderKeyFn := fun _ => some LOADER_V3
    tryFromInstructionError := fun _ => none
    engine := okEngine }

/-- A sample environment around `errEngine`. -/
def sampleEnvErr : Env :=
  { messageKeys := fun ixs => ixs.map (·.programId)
    constructInstructionsData := fun _ => [3, 3]
    getLoaderKeyFn := fun _ => some LOADER_V3
    tryFromInstructionError := fun _ => none
    engine := errEngine }

/-- The concrete failing single-instruction result used by witnesses. -/
def sampleErrInstructionResult : InstructionResult :=
  (process_instruction sampleEnvErr sampleIx [(2, sampleAccount)]).getD
    default_instruction_result

/-- The concrete successful single-instruction result used by witnesses. -/
def sampleOkInstructionResult : InstructionResult :=
  (process_instruction sampleEnvOk sampleIx [(2, sampleAccount)]).getD
    default_instruction_result

/-- A placeholder transaction result (for `Option.getD` in witnesses only;
the source type has no `Default`). -/
def placeholderTransactionResult : TransactionResult :=
  { computeUnitsConsumed := 0, executionTime := 0, programResult := .Success,
    rawResult := none, returnData := [], resultingAccounts := [],
    innerInstructions := [], message := none }

/-- The concrete failing transaction result used by witnesses. -/
def sampleErrTransactionResult : TransactionResult :=
  (process_transaction_instructions sampleEnvErr [sampleIx] [(2, sampleAccount)]).getD
    placeholderTransactionResult

/-! ## C1 -/

/-- **C1.** For every execution whose raw result is an error, the returned
`resulting_accounts` vector is element-wise equal to the input accounts
vector: this holds for `process_instruction` (single instruction) and for
`process_transaction_instructions` (failure of any instruction in the
message leaves all accounts equal to the input). -/
theorem C1_failed_execution_preserves_input_accounts :
    (∀ env ix accounts r, process_instruction env ix accounts = some r →
      r.rawResult.isSome → r.resultingAccounts = accounts) ∧
    (∀ env ixs accounts tr, process_transaction_instructions env ixs accounts = some tr →
      tr.rawResult.isSome → tr.resultingAccounts = accounts) := by
  constructor
  · intro env ix accounts r h hErr
    obtain ⟨fb, tx, -, -, hraw, hres⟩ := process_instruction_shape env ix accounts r h
    rw [hres]
    rw [hraw] at hErr
    cases hmr : (env.engine.run [ix] (env.messageKeys [ix]) tx 0).1.rawResult with
    | none => rw [hmr] at hErr; simp [extract_ix_err] at hErr
    | some p => simp
  · intro env ixs accounts tr h hErr
    obtain ⟨fb, tx, -, -, hraw, hres⟩ :=
      process_transaction_instructions_shape env ixs accounts tr h
    rw [hres]
    rw [hraw] at hErr
    cases hmr : (env.engine.run ixs (env.messageKeys ixs) tx 0).1.rawResult with
    | none => rw [hmr] at hErr; simp at hErr
    | some p => simp

/-- Witness for C1 at a concrete failing execution. -/
theorem C1_witness :
    (process_instruction sampleEnvErr sampleIx [(2, sampleAccount)]
        = some sampleErrInstructionResult ∧
      sampleErrInstructionResult.rawResult.isSome = true ∧
      sampleErrInstructionResult.resultingAccounts = [(2, sampleAccount)]) ∧
    (process_transaction_instructions sampleEnvErr [sampleIx] [(2, sampleAccount)]
        = some sampleErrTransactionResult ∧
      sampleErrTransactionResult.rawResult.isSome = true ∧
      sampleErrTransactionResult.resultingAccounts = [(2, sampleAccount)]) :=
  ⟨⟨by decide, by decide,
      C1_failed_execution_preserves_input_accounts.1 sampleEnvErr sampleIx
        [(2, sampleAccount)] sampleErrInstructionResult (by decide) (by decide)⟩,
    ⟨by decide, by decide,
      C1_failed_execution_preserves_input_accounts.2 sampleEnvErr [sampleIx]
        [(2, sampleAccount)] sampleErrTransactionResult (by decide) (by decide)⟩⟩

/-! ## C2 -/

/-- **C2.** For every input `(instruction, accounts)` to `process_instruction`
(and to `process_transaction_instructions`), the returned
`resulting_accounts` has the same length as the input accounts vector and
the same keys in the same order, whether the execution succeeds or fails. -/
theorem C2_resulting_accounts_same_length_and_keys :
    (∀ env ix accounts r, process_instruction env ix accounts = some r →
      r.resultingAccounts.length = accounts.length ∧
      r.resultingAccounts.map Prod.fst = accounts.map Prod.fst) ∧
    (∀ env ixs accounts tr, process_transaction_instructions env ixs accounts = some tr →
      tr.resultingAccounts.length = accounts.length ∧
      tr.resultingAccounts.map Prod.fst = accounts.map Prod.fst) := by
  constructor
  · intro env ix accounts r h
    obtain ⟨fb, tx, -, -, -, hres⟩ := process_instruction_shape env ix accounts r h
    have hmap : r.resultingAccounts.map Prod.fst = accounts.map Prod.fst := by
      rw [hres]
      split
      · exact deconstruct_map_fst _ _
      · rfl
    refine ⟨?_, hmap⟩
    have := congrArg List.length hmap
    simpa using this
  · intro env ixs accounts tr h
    obtain ⟨fb, tx, -, -, -, hres⟩ :=
      process_transaction_instructions_shape env ixs accounts tr h
    have hmap : tr.resultingAccounts.map Prod.fst = accounts.map Prod.fst := by
      rw [hres]
      split
      · exact deconstruct_map_fst _ _
      · rfl
    refine ⟨?_, hmap⟩
    have := congrArg List.length hmap
    simpa using this

/-- Witness for C2 at a concrete successful execution. -/
theorem C2_witness :
    process_instruction sampleEnvOk sampleIx [(2, sampleAccount)]
        = some sampleOkInstructionResult ∧
      sampleOkInstructionResult.resultingAccounts.length = 1 ∧
      sampleOkInstructionResult.resultingAccounts.map Prod.fst = [2] :=
  ⟨by decide,
    by
      have := (C2_resulting_accounts_same_length_and_keys.1 sampleEnvOk sampleIx
        [(2, sampleAccount)] sampleOkInstructionResult (by decide)).1
      simpa using this,
    by
      have := (C2_resulting_accounts_same_length_and_keys.1 sampleEnvOk sampleIx
        [(2, sampleAccount)] sampleOkInstructionResult (by decide)).2
      simpa using this⟩

/-! ## C10 -/

/-- **C10.** For every successful call to `process_instruction`, any
caller-supplied account whose key does not appear in the compiled message's
account keys (and hence is absent from the transaction context) is returned
in `resulting_accounts` unchanged, cloned from the input, at its original
position. -/
theorem C10_untouched_account_passthrough :
    ∀ env ix accounts r (i : Nat) (pa : Pubkey × Account),
      process_instruction env ix accounts = some r →
      r.rawResult = none →
      accounts[i]? = some pa →
      pa.1 ∉ env.messageKeys [ix] →
      r.resultingAccounts[i]? = some pa := by
  intro env ix accounts r i pa h hOk hi hmem
  obtain ⟨fb, tx, -, htx, hraw, hres⟩ := process_instruction_shape env ix accounts r h
  have hctxKeys : ((env.engine.run [ix] (env.messageKeys [ix]) tx 0).2).map Prod.fst
      = env.messageKeys [ix] := by
    rw [env.engine.keysFixed [ix] (env.messageKeys [ix]) tx 0]
    exact build_transaction_accounts_map_fst env (env.messageKeys [ix]) accounts [ix] fb tx htx
  cases hmr : (env.engine.run [ix] (env.messageKeys [ix]) tx 0).1.rawResult with
  | some p => rw [hraw, hmr] at hOk; simp [extract_ix_err] at hOk
  | none =>
    rw [hres, if_pos (by rw [hmr]; rfl)]
    have hfind : ((env.engine.run [ix] (env.messageKeys [ix]) tx 0).2).find? (·.1 == pa.1)
        = none := by
      rw [List.find?_eq_none]
      intro e he hbeq
      apply hmem
      rw [← hctxKeys]
      have : e.1 = pa.1 := by simpa using hbeq
      rw [← this]
      exact List.mem_map_of_mem Prod.fst he
    simp [deconstruct_resulting_accounts, List.getElem?_map, hi, hfind]

/-- Witness for C10: account `2` is absent from the compiled message keys
and is passed through unchanged at position 0. -/
theorem C10_witness :
    (process_instruction sampleEnvOk sampleIx [(2, sampleAccount)]
        = some sampleOkInstructionResult) ∧
    sampleOkInstructionResult.rawResult = none ∧
    ([((2 : Pubkey), sampleAccount)][0]? = some (2, sampleAccount)) ∧
    ((2 : Pubkey) ∉ sampleEnvOk.messageKeys [sampleIx]) ∧
    sampleOkInstructionResult.resultingAccounts[0]? = some (2, sampleAccount) :=
  ⟨by decide, by decide, by decide, by decide,
    C10_untouched_account_passthrough sampleEnvOk sampleIx [(2, sampleAccount)]
      sampleOkInstructionResult 0 (2, sampleAccount)
      (by decide) (by decide) (by decide) (by decide)⟩

/-! ## C4 -/

/-- Encoding a `Custom` error ignores its payload: the first four serialized
bytes are the `Custom` tag (25), so the code is `26`. -/
lemma instr_err_to_num_custom (c : Nat) : instr_err_to_num (.Custom c) = 26 := by
  simp only [instr_err_to_num, bincodeSerializeInstrErr, InstructionError.tagOf]
  rw [List.take_append_of_le_length (by decide)]
  decide

/-- Decoding code `26` yields `Custom custom_code` (`Custom 0` when the
recorded custom code is zero). -/
lemma num_to_instr_err_26 (c : Nat) :
    num_to_instr_err 26 c = some (.Custom (if c = 0 then 0 else c)) := by
  have h2 : bincodeDeserializeInstrErr (natToLeBytes 8 (((26 : Int) - 1).emod (2 ^ 64)).toNat)
      = some (.Custom 0) := by decide
  simp only [num_to_instr_err, h2, Option.map_some', InstructionError.isCustom]
  by_cases hc : c = 0 <;> simp [hc]

/-- **C4.** For the Format B (Firedancer) error-code encoding: a non-success
`InstructionError` `e` is encoded as the first four little-endian bytes of
its binary serialization plus one; decoding reverses this and substitutes
`program_custom_code` when the decoded tag is the `Custom` variant and
`program_custom_code` is nonzero; consequently, for every named
`InstructionError` variant and for `Custom c` with arbitrary `c`,
`decode (encode e) (custom_code_of e) = e`. -/
theorem C4_format_b_error_code_roundtrip (e : InstructionError) :
    num_to_instr_err (instr_err_to_num e) (customCodeOf e) = some e := by
  cases e
  case Custom c =>
    rw [instr_err_to_num_custom, num_to_instr_err_26]
    by_cases hc : c = 0 <;> simp [hc, customCodeOf]
  all_goals decide

/-! ## C8 -/

/-- **C8 counterexample.** The claim states `everything()` contains the
execution-time selector; in the source that entry is commented out
("Intentionally omitted for now"), so `ExecutionTime` is not in
`everything()`. -/
theorem C8_counterexample_execution_time_missing :
    Compare.ExecutionTime ∉ Compare.everything := by decide

/-- **C8 (amended).** `everything()` contains exactly the compute-units,
program-result, return-data, and all-resulting-accounts (every per-field
toggle enabled) selectors — the execution-time selector is intentionally
omitted — and `everything_but_cus()` equals `everything()` minus the
compute-units selector (execution time is absent from both). -/
theorem C8_presets_amended :
    Compare.everything = [Compare.ComputeUnits, Compare.ProgramResult, Compare.ReturnData,
      Compare.AllResultingAccounts true true true true true] ∧
    Compare.everything_but_cus = Compare.everything.filter (· ≠ Compare.ComputeUnits) ∧
    Compare.ExecutionTime ∉ Compare.everything ∧
    Compare.ExecutionTime ∉ Compare.everything_but_cus := by
  refine ⟨rfl, ?_, by decide, by decide⟩
  decide

/-! ## C9 -/

/-- Pointwise reading of a successful `mapM'` over `Option`. -/
lemma option_mapM'_getElem {α β : Type} (f : α → Option β) :
    ∀ (l : List α) (res : List β), l.mapM' f = some res →
      ∀ (i : Nat) (a : α), l[i]? = some a → res[i]? = f a := by
  intro l
  induction l with
  | nil => intro res h i a hi; simp at hi
  | cons x rest ih =>
    intro res h i a hi
    simp only [List.mapM'] at h
    cases hx : f x with
    | none => rw [hx] at h; simp at h
    | some b =>
      rw [hx] at h
      cases hrest : rest.mapM' f with
      | none => rw [hrest] at h; simp at h
      | some resRest =>
        rw [hrest] at h
        simp only [Option.bind_eq_bind, Option.some_bind, Option.pure_def,
          Option.some.injEq] at h
        subst h
        cases i with
        | zero => simp at hi; subst hi; simpa using hx.symm
        | succ n =>
          simp only [List.getElem?_cons_succ] at hi ⊢
          exact ih resRest hrest n a hi

/-- **C9 counterexample.** A program cached under loader v2 with nonempty
ELF bytes `[1, 2, 3]`: both synthesis paths produce a stub whose data is
empty (the source passes `&[]`), not the cached ELF bytes. -/
theorem C9_counterexample_stub_data_not_elf :
    (get_all_keyed_program_accounts [(5, { loaderKey := LOADER_V2, elfBytes := some [1, 2, 3] })]).map
        (fun l => l.map fun pa => pa.2.data) = some [[]] ∧
    (maybe_create_program_account [(5, { loaderKey := LOADER_V2, elfBytes := some [1, 2, 3] })] 5).map
        (fun o => o.map Account.data) = some (some []) ∧
    ([] : List Nat) ≠ [1, 2, 3] := by
  refine ⟨by decide, by decide, by decide⟩

/-- **C9 (amended).** For every program cached under the BPF loader v1 or v2
key, the account stubs synthesized by `get_all_keyed_program_accounts()` and
`maybe_create_program_account(pubkey)` are executable accounts owned by the
respective loader whose data field is empty — the cached ELF bytes stay in
the cache and are not copied into the stub. -/
theorem C9_loader_v1_v2_stub_shape :
    (∀ entriesCache accountsList (i : Nat) pk ce,
      get_all_keyed_program_accounts entriesCache = some accountsList →
      entriesCache[i]? = some (pk, ce) →
      ((ce.loaderKey = LOADER_V1 →
          accountsList[i]? = some (pk, create_program_account_loader_v1 [])) ∧
        (ce.loaderKey = LOADER_V2 →
          accountsList[i]? = some (pk, create_program_account_loader_v2 [])))) ∧
    (∀ entriesCache pk ce,
      (entriesCache.find? (·.1 == pk)).map (·.2) = some ce →
      ((ce.loaderKey = LOADER_V1 →
          maybe_create_program_account entriesCache pk
            = some (some (create_program_account_loader_v1 []))) ∧
        (ce.loaderKey = LOADER_V2 →
          maybe_create_program_account entriesCache pk
            = some (some (create_program_account_loader_v2 []))))) ∧
    (create_program_account_loader_v1 []).executable = true ∧
    (create_program_account_loader_v1 []).owner = LOADER_V1 ∧
    (create_program_account_loader_v1 []).data = [] ∧
    (create_program_account_loader_v2 []).executable = true ∧
    (create_program_account_loader_v2 []).owner = LOADER_V2 ∧
    (create_program_account_loader_v2 []).data = [] := by
  refine ⟨?_, ?_, rfl, rfl, rfl, rfl, rfl, rfl⟩
  · intro entriesCache accountsList i pk ce hall hi
    unfold get_all_keyed_program_accounts at hall
    rw [← List.mapM'_eq_mapM] at hall
    have := option_mapM'_getElem _ entriesCache accountsList hall i (pk, ce) hi
    constructor <;> intro hL <;> rw [this] <;>
      simp [programAccountForEntry, hL, NATIVE_LOADER, LOADER_V1, LOADER_V2]
  · intro entriesCache pk ce hfind
    unfold maybe_create_program_account
    rw [hfind]
    constructor <;> intro hL <;>
      simp [programAccountForEntry, hL, NATIVE_LOADER, LOADER_V1, LOADER_V2]

/-- Witness for C9's amended theorem on a two-entry cache. -/
theorem C9_witness :
    (get_all_keyed_program_accounts
        [(5, { loaderKey := LOADER_V1, elfBytes := some [9] }),
          (6, { loaderKey := LOADER_V2, elfBytes := some [8] })]
      = some [(5, create_program_account_loader_v1 []),
          (6, create_program_account_loader_v2 [])]) ∧
    (maybe_create_program_account
        [(5, { loaderKey := LOADER_V1, elfBytes := some [9] }),
          (6, { loaderKey := LOADER_V2, elfBytes := some [8] })] 6
      = some (some (create_program_account_loader_v2 []))) :=
  ⟨by decide,
    (C9_loader_v1_v2_stub_shape.2.1
      [(5, { loaderKey := LOADER_V1, elfBytes := some [9] }),
        (6, { loaderKey := LOADER_V2, elfBytes := some [8] })] 6
      { loaderKey := LOADER_V2, elfBytes := some [8] } (by decide)).2 (by decide)⟩

/-! ## C5 -/

/-- Folding stores over entries whose keys avoid `pk` does not change the
store at `pk`. -/
lemma fold_store_not_mem (l : List (Pubkey × Account)) :
    ∀ (s : Store) (pk : Pubkey), pk ∉ l.map Prod.fst →
      (l.foldl (fun s pa => storeAccount s pa.1 pa.2) s) pk = s pk := by
  induction l with
  | nil => intro s pk _; rfl
  | cons a rest ih =>
    intro s pk hmem
    simp only [List.map_cons, List.mem_cons, not_or] at hmem
    simp only [List.foldl_cons]
    rw [ih _ pk hmem.2]
    simp [storeAccount, hmem.1]

/-- Folding stores over a key-distinct list records every pair. -/
lemma fold_store_mem (l : List (Pubkey × Account)) :
    ∀ (s : Store) (pk : Pubkey) (acct : Account),
      (l.map Prod.fst).Nodup → (pk, acct) ∈ l →
      (l.foldl (fun s pa => storeAccount s pa.1 pa.2) s) pk = some acct := by
  induction l with
  | nil => intro s pk acct _ hmem; simp at hmem
  | cons a rest ih =>
    intro s pk acct hnd hmem
    simp only [List.map_cons, List.nodup_cons] at hnd
    simp only [List.foldl_cons]
    rcases List.mem_cons.mp hmem with heq | htail
    · have hk : a.1 = pk := by rw [← heq]
      have : pk ∉ rest.map Prod.fst := by rw [← hk]; exact hnd.1
      rw [fold_store_not_mem rest _ pk this]
      simp [storeAccount, hk, ← heq]
    · exact ih _ pk acct hnd.2 htail

/-- **C5.** For the stateful context (`MolluskContext`): after an invocation
whose program result is `Success`, every `(pubkey, account)` pair in the
result's `resulting_accounts` is written to the account store, so
`store.get(pubkey)` equals the post-state (stated for key-distinct
resulting-account vectors, the shape produced by the harness); after an
invocation whose program result is an error, no account is written and the
store is unchanged. -/
theorem C5_store_persistence :
    (∀ (store : Store) (result : InstructionResult),
      result.programResult.isOk = true →
      (result.resultingAccounts.map Prod.fst).Nodup →
      ∀ pk acct, (pk, acct) ∈ result.resultingAccounts →
        consume_mollusk_result store result pk = some acct) ∧
    (∀ (store : Store) (result : InstructionResult),
      result.programResult.isOk = false →
      consume_mollusk_result store result = store) := by
  constructor
  · intro store result hOk hnd pk acct hmem
    unfold consume_mollusk_result
    rw [hOk]
    simpa using fold_store_mem result.resultingAccounts store pk acct hnd hmem
  · intro store result hErr
    unfold consume_mollusk_result
    rw [hErr]
    simp

/-- An empty account store. -/
def emptyStore : Store := fun _ => none

/-- Witness for C5 at the concrete sample results. -/
theorem C5_witness :
    (sampleOkInstructionResult.programResult.isOk = true ∧
      (sampleOkInstructionResult.resultingAccounts.map Prod.fst).Nodup ∧
      ((2 : Pubkey), sampleAccount) ∈ sampleOkInstructionResult.resultingAccounts ∧
      consume_mollusk_result emptyStore sampleOkInstructionResult 2 = some sampleAccount) ∧
    (sampleErrInstructionResult.programResult.isOk = false ∧
      consume_mollusk_result emptyStore sampleErrInstructionResult = emptyStore) :=
  ⟨⟨by decide, by decide, by decide,
      C5_store_persistence.1 emptyStore sampleOkInstructionResult (by decide) (by decide)
        2 sampleAccount (by decide)⟩,
    ⟨by decide,
      C5_store_persistence.2 emptyStore sampleErrInstructionResult (by decide)⟩⟩

/-! ## C7 -/

/-- The claim's grouping rule, stated structurally: each nesting-level-0
entry opens a group holding the maximal run of deeper entries that follows
it (up to the next level-0 entry); deeper entries with no preceding level-0
entry are skipped (traces taken from the transaction context begin with a
top-level entry, so none are skipped there). -/
def groupsSpec : List TraceEntry → List (List InnerInstruction)
  | [] => []
  | e :: rest =>
    if e.nestingLevel = 0 then
      ((rest.takeWhile fun x => x.nestingLevel != 0).map TraceEntry.toInner)
        :: groupsSpec (rest.dropWhile fun x => x.nestingLevel != 0)
    else groupsSpec rest
termination_by l => l.length
decreasing_by
  · simp only [List.length_cons]
    exact Nat.lt_succ_of_le (List.dropWhile_sublist _).length_le
  · simp

/-- The head of a `dropWhile` residue falsifies the predicate. -/
lemma dropWhile_cons_prop {α : Type} (p : α → Bool) :
    ∀ (l : List α) (e : α) (rest : List α), l.dropWhile p = e :: rest → p e = false := by
  intro l
  induction l with
  | nil => intro e rest h; simp [List.dropWhile] at h
  | cons a tl ih =>
    intro e rest h
    rw [List.dropWhile_cons] at h
    split at h
    · exact ih e rest h
    · rename_i hpa
      cases h
      simpa using hpa

/-- The saturated stack height is `1` exactly for nesting level `0`. -/
lemma stackHeightOf_eq_one_iff (e : TraceEntry) :
    e.stackHeightOf = 1 ↔ e.nestingLevel = 0 := by
  simp only [TraceEntry.stackHeightOf, Nat.min_def]
  split <;> omega

/-- Appending to the last group of a nonempty group list. -/
lemma appendToLast_append (gs : List (List InnerInstruction)) (g : List InnerInstruction)
    (x : InnerInstruction) : appendToLast (gs ++ [g]) x = gs ++ [g ++ [x]] := by
  induction gs with
  | nil => rfl
  | cons a gs' ih =>
    rcases gs' with - | ⟨b, gs''⟩
    · rfl
    · simpa [appendToLast] using ih

/-- The fold step of `deconstruct_inner_instructions`. -/
def deconstructStep (acc : List (List InnerInstruction)) (e : TraceEntry) :
    List (List InnerInstruction) :=
  if e.stackHeightOf = 1 then acc ++ [[]] else appendToLast acc e.toInner

lemma deconstruct_eq_foldl (ixTrace : List TraceEntry) :
    deconstruct_inner_instructions ixTrace = ixTrace.foldl deconstructStep [] := rfl

/-- Running the fold over a run of deeper entries appends their records to
the last group. -/
lemma foldl_inner_run :
    ∀ (inner : List TraceEntry), (∀ e ∈ inner, e.nestingLevel ≠ 0) →
      ∀ (gs : List (List InnerInstruction)) (g : List InnerInstruction),
        (inner.foldl deconstructStep (gs ++ [g]))
          = gs ++ [g ++ inner.map TraceEntry.toInner] := by
  intro inner
  induction inner with
  | nil => intro _ gs g; simp [List.foldl_nil]
  | cons e rest ih =>
    intro hall gs g
    have he : e.nestingLevel ≠ 0 := hall e (by simp)
    have hsh : ¬ e.stackHeightOf = 1 := fun hc => he ((stackHeightOf_eq_one_iff e).mp hc)
    simp only [List.foldl_cons, deconstructStep, if_neg hsh, appendToLast_append]
    rw [ih (fun x hx => hall x (by simp [hx])) gs (g ++ [e.toInner])]
    simp

/-- With no group open, a run of deeper entries is dropped. -/
lemma foldl_inner_run_empty :
    ∀ (inner : List TraceEntry), (∀ e ∈ inner, e.nestingLevel ≠ 0) →
      (inner.foldl deconstructStep []) = [] := by
  intro inner
  induction inner with
  | nil => intro _; rfl
  | cons e rest ih =>
    intro hall
    have he : e.nestingLevel ≠ 0 := hall e (by simp)
    have hsh : ¬ e.stackHeightOf = 1 := fun hc => he ((stackHeightOf_eq_one_iff e).mp hc)
    simp only [List.foldl_cons, deconstructStep, if_neg hsh, appendToLast]
    exact ih fun x hx => hall x (by simp [hx])

/-- Main fold/spec bridge, from a state with at least one open group. -/
lemma foldl_from_group :
    ∀ (n : Nat) (ixTrace : List TraceEntry), ixTrace.length ≤ n →
      ∀ (gs : List (List InnerInstruction)) (g : List InnerInstruction),
        (ixTrace.foldl deconstructStep (gs ++ [g]))
          = (gs ++ [g ++ (ixTrace.takeWhile fun x => x.nestingLevel != 0).map
              TraceEntry.toInner])
            ++ groupsSpec (ixTrace.dropWhile fun x => x.nestingLevel != 0) := by
  intro n
  induction n with
  | zero =>
    intro ixTrace hlen gs g
    have : ixTrace = [] := List.length_eq_zero.mp (Nat.le_zero.mp hlen)
    subst this
    simp [groupsSpec]
  | succ m ih =>
    intro ixTrace hlen gs g
    have hsplit := List.takeWhile_append_dropWhile
      (p := fun x => x.nestingLevel != 0) (l := ixTrace)
    conv in ixTrace.foldl _ _ => rw [← hsplit]
    rw [List.foldl_append]
    have htk : ∀ e ∈ ixTrace.takeWhile fun x => x.nestingLevel != 0, e.nestingLevel ≠ 0 := by
      intro e he
      simpa using List.mem_takeWhile_imp he
    rw [foldl_inner_run _ htk gs g]
    cases hdr : ixTrace.dropWhile fun x => x.nestingLevel != 0 with
    | nil => simp [groupsSpec]
    | cons e rest =>
      have he : e.nestingLevel = 0 := by
        have := dropWhile_cons_prop (fun x => x.nestingLevel != 0) ixTrace e rest hdr
        simpa using this
      have hsh : e.stackHeightOf = 1 := (stackHeightOf_eq_one_iff e).mpr he
      have hrest : rest.length ≤ m := by
        have h1 : (ixTrace.dropWhile fun x => x.nestingLevel != 0).length ≤ ixTrace.length :=
          (ixTrace.dropWhile_sublist _).length_le
        rw [hdr] at h1
        simp only [List.length_cons] at h1
        omega
      simp only [List.foldl_cons, deconstructStep, if_pos hsh]
      rw [ih rest hrest
        (gs ++ [g ++ (ixTrace.takeWhile fun x => x.nestingLevel != 0).map TraceEntry.toInner])
        []]
      conv_rhs => rw [groupsSpec]
      rw [if_pos he]
      simp [List.append_assoc]

/-- `deconstruct_inner_instructions` computes exactly the claim's grouping
rule, for every trace. -/
lemma deconstruct_eq_groupsSpec :
    ∀ ixTrace, deconstruct_inner_instructions ixTrace = groupsSpec ixTrace := by
  intro ixTrace
  induction ixTrace with
  | nil => rw [groupsSpec]; rfl
  | cons e rest ih =>
    rw [deconstruct_eq_foldl, List.foldl_cons, groupsSpec]
    by_cases he : e.nestingLevel = 0
    · have hsh := (stackHeightOf_eq_one_iff e).mpr he
      simp only [deconstructStep, if_pos hsh, if_pos he, List.nil_append]
      rw [show ([[]] : List (List InnerInstruction)) = [] ++ [[]] from rfl,
        foldl_from_group rest.length rest le_rfl [] []]
      simp
    · have hsh : ¬ e.stackHeightOf = 1 := fun hc => he ((stackHeightOf_eq_one_iff e).mp hc)
      simp only [deconstructStep, if_neg hsh, if_neg he, appendToLast]
      rw [← deconstruct_eq_foldl]
      exact ih

/-- `appendToLast` never changes the number of groups. -/
lemma appendToLast_length (gs : List (List InnerInstruction)) (x : InnerInstruction) :
    (appendToLast gs x).length = gs.length := by
  induction gs with
  | nil => rfl
  | cons a gs' ih =>
    rcases gs' with - | ⟨b, gs''⟩
    · rfl
    · simpa [appendToLast] using ih

/-- The fold opens exactly one group per nesting-level-0 entry. -/
lemma foldl_groups_length :
    ∀ (ixTrace : List TraceEntry) (acc : List (List InnerInstruction)),
      (ixTrace.foldl deconstructStep acc).length
        = acc.length + (ixTrace.filter fun e => e.nestingLevel == 0).length := by
  intro ixTrace
  induction ixTrace with
  | nil => intro acc; simp
  | cons e rest ih =>
    intro acc
    rw [List.foldl_cons, List.filter_cons]
    by_cases he : e.nestingLevel = 0
    · have hsh := (stackHeightOf_eq_one_iff e).mpr he
      simp only [deconstructStep, if_pos hsh, ih, List.length_append, he]
      simp
      omega
    · have hsh : ¬ e.stackHeightOf = 1 := fun hc => he ((stackHeightOf_eq_one_iff e).mp hc)
      simp only [deconstructStep, if_neg hsh, ih, appendToLast_length]
      simp [he]

/-- Entries of groups after `appendToLast` are old entries or the appended
one. -/
lemma appendToLast_entries (P : InnerInstruction → Prop) :
    ∀ (gs : List (List InnerInstruction)) (x : InnerInstruction),
      (∀ g ∈ gs, ∀ z ∈ g, P z) → P x →
      ∀ g ∈ appendToLast gs x, ∀ z ∈ g, P z := by
  intro gs
  induction gs with
  | nil => intro x _ _ g hg; simp [appendToLast] at hg
  | cons a gs' ih =>
    intro x hall hx g hg z hz
    rcases gs' with - | ⟨b, gs''⟩
    · simp only [appendToLast, List.mem_singleton] at hg
      subst hg
      rcases List.mem_append.mp hz with h1 | h1
      · exact hall a (by simp) z h1
      · rw [List.mem_singleton.mp h1]; exact hx
    · simp only [appendToLast, List.mem_cons] at hg
      rcases hg with hg | hg
      · subst hg; exact hall g (by simp) z hz
      · exact ih x (fun g' hg' => hall g' (by simp [hg'])) hx g hg z hz

/-- Every record produced by the fold carries a stack height of at least
two (when the `u32` conversion succeeds). -/
lemma foldl_stack_heights :
    ∀ (ixTrace : List TraceEntry) (acc : List (List InnerInstruction)),
      (∀ g ∈ acc, ∀ x ∈ g, ∀ h, x.stackHeight = some h → 2 ≤ h) →
      ∀ g ∈ ixTrace.foldl deconstructStep acc, ∀ x ∈ g,
        ∀ h, x.stackHeight = some h → 2 ≤ h := by
  intro ixTrace
  induction ixTrace with
  | nil => intro acc hacc; exact hacc
  | cons e rest ih =>
    intro acc hacc
    rw [List.foldl_cons]
    by_cases hsh : e.stackHeightOf = 1
    · simp only [deconstructStep, if_pos hsh]
      refine ih _ ?_
      intro g hg x hx
      rcases List.mem_append.mp hg with h1 | h1
      · exact hacc g h1 x hx
      · rw [List.mem_singleton.mp h1] at hx; simp at hx
    · simp only [deconstructStep, if_neg hsh]
      refine ih _ ?_
      refine appendToLast_entries _ acc e.toInner hacc ?_
      intro h hh
      have hne : e.nestingLevel ≠ 0 := fun hc => hsh ((stackHeightOf_eq_one_iff e).mpr hc)
      simp only [TraceEntry.toInner] at hh
      split at hh
      · cases hh
        simp only [TraceEntry.stackHeightOf, Nat.min_def]
        split <;> omega
      · cases hh

/-- **C7.** For every instruction trace taken from the transaction context,
inner-instruction deconstruction produces one group per trace entry with
nesting level 0 (each such entry opens a new empty group), appends every
deeper entry to the current group — the group of the latest preceding
level-0 entry, as computed by `groupsSpec` — with
`stack_height = nesting_level + 1`, and therefore every recorded
inner-instruction entry has `stack_height >= 2`. -/
theorem C7_inner_instruction_grouping (ixTrace : List TraceEntry) :
    deconstruct_inner_instructions ixTrace = groupsSpec ixTrace ∧
    (deconstruct_inner_instructions ixTrace).length
      = (ixTrace.filter fun e => e.nestingLevel == 0).length ∧
    ∀ g ∈ deconstruct_inner_instructions ixTrace, ∀ x ∈ g,
      ∀ h, x.stackHeight = some h → 2 ≤ h := by
  refine ⟨deconstruct_eq_groupsSpec ixTrace, ?_, ?_⟩
  · rw [deconstruct_eq_foldl]
    simpa using foldl_groups_length ixTrace []
  · rw [deconstruct_eq_foldl]
    exact foldl_stack_heights ixTrace [] (by simp)

/-- A sample top-level trace entry. -/
def sampleTopEntry : TraceEntry :=
  { nestingLevel := 0, programAccountIndexInTx := 0, instructionData := [],
    instructionAccounts := [] }

/-- A sample depth-one CPI trace entry. -/
def sampleCpiEntry1 : TraceEntry :=
  { nestingLevel := 1, programAccountIndexInTx := 2, instructionData := [5],
    instructionAccounts := [1, 0] }

/-- A sample depth-two CPI trace entry. -/
def sampleCpiEntry2 : TraceEntry :=
  { nestingLevel := 2, programAccountIndexInTx := 3, instructionData := [],
    instructionAccounts := [2] }

/-- A sample depth-one CPI trace entry under the second top-level entry. -/
def sampleCpiEntry3 : TraceEntry :=
  { nestingLevel := 1, programAccountIndexInTx := 2, instructionData := [],
    instructionAccounts := [] }

/-- A sample five-entry trace: two top-level entries, the first with two
nested CPIs and the second with one. -/
def sampleTrace : List TraceEntry :=
  [sampleTopEntry, sampleCpiEntry1, sampleCpiEntry2, sampleTopEntry, sampleCpiEntry3]

/-- Witness for C7 at the sample trace, instantiating the per-entry bound at
the first recorded CPI. -/
theorem C7_witness :
    deconstruct_inner_instructions sampleTrace = groupsSpec sampleTrace ∧
    (deconstruct_inner_instructions sampleTrace).length = 2 ∧
    2 ≤ 2 :=
  ⟨(C7_inner_instruction_grouping sampleTrace).1,
    by
      rw [(C7_inner_instruction_grouping sampleTrace).2.1]
      decide,
    (C7_inner_instruction_grouping sampleTrace).2.2
      [sampleCpiEntry1.toInner, sampleCpiEntry2.toInner] (by decide)
      sampleCpiEntry1.toInner (by decide) 2 (by decide)⟩

/-! ## C3 -/

/-- The chain's per-step results, stated structurally: step `k` runs on the
resulting accounts of step `k-1` (step `0` on the caller's accounts), and
the list ends with the first failing step — later instructions are not
executed. -/
def chainSteps (env : Env) (fallbackAccounts : List (Pubkey × Account)) :
    Nat → List (Pubkey × Account) → List Instruction →
    Option (List InstructionResult)
  | _, _, [] => some []
  | index, accounts, instruction :: rest => do
    let thisResult ← process_instruction_chain_element env index instruction accounts
      fallbackAccounts
    if thisResult.programResult.isErr then some [thisResult]
    else do
      let tail ← chainSteps env fallbackAccounts (index + 1) thisResult.resultingAccounts rest
      some (thisResult :: tail)

/-- The chain loop is the absorb-fold of the structural step list. -/
lemma chainLoop_eq_steps (env : Env) (fallbackAccounts : List (Pubkey × Account)) :
    ∀ (instructions : List Instruction) (index : Nat) (composite : InstructionResult),
      chainLoop env fallbackAccounts instructions index composite
        = (chainSteps env fallbackAccounts index composite.resultingAccounts
            instructions).map
            (fun stepList => stepList.foldl (fun c s => c.absorb s) composite) := by
  intro instructions
  induction instructions with
  | nil => intro index composite; rfl
  | cons instruction rest ih =>
    intro index composite
    rw [chainLoop, chainSteps]
    cases hel : process_instruction_chain_element env index instruction
      composite.resultingAccounts fallbackAccounts with
    | none => simp [hel]
    | some thisResult =>
      simp only [Option.bind_eq_bind, Option.some_bind]
      have habs : (composite.absorb thisResult).programResult = thisResult.programResult := rfl
      by_cases herr : thisResult.programResult.isErr
      · rw [if_pos (by rw [habs]; exact herr), if_pos herr]
        rfl
      · rw [if_neg (by rw [habs]; exact herr), if_neg herr]
        rw [ih (index + 1) (composite.absorb thisResult)]
        have hacc : (composite.absorb thisResult).resultingAccounts
            = thisResult.resultingAccounts := rfl
        rw [hacc]
        cases chainSteps env fallbackAccounts (index + 1) thisResult.resultingAccounts rest
          <;> rfl

/-- CU of an absorb-fold: the initial CU plus the per-step sum. -/
lemma foldl_absorb_cu (steps : List InstructionResult) :
    ∀ init : InstructionResult,
      (steps.foldl (fun c s => c.absorb s) init).computeUnitsConsumed
        = init.computeUnitsConsumed + (steps.map (·.computeUnitsConsumed)).sum := by
  induction steps with
  | nil => intro init; simp
  | cons s rest ih =>
    intro init
    rw [List.foldl_cons, ih]
    simp [InstructionResult.absorb, Nat.add_assoc]

/-- Execution time of an absorb-fold: the initial time plus the per-step
sum. -/
lemma foldl_absorb_time (steps : List InstructionResult) :
    ∀ init : InstructionResult,
      (steps.foldl (fun c s => c.absorb s) init).executionTime
        = init.executionTime + (steps.map (·.executionTime)).sum := by
  induction steps with
  | nil => intro init; simp
  | cons s rest ih =>
    intro init
    rw [List.foldl_cons, ih]
    simp [InstructionResult.absorb, Nat.add_assoc]

/-- All non-additive fields of an absorb-fold come from the last absorbed
result. -/
lemma foldl_absorb_last (steps : List InstructionResult) (hne : steps ≠ []) :
    ∀ init : InstructionResult,
      (steps.foldl (fun c s => c.absorb s) init).programResult
          = (steps.getLast hne).programResult ∧
      (steps.foldl (fun c s => c.absorb s) init).rawResult
          = (steps.getLast hne).rawResult ∧
      (steps.foldl (fun c s => c.absorb s) init).returnData
          = (steps.getLast hne).returnData ∧
      (steps.foldl (fun c s => c.absorb s) init).resultingAccounts
          = (steps.getLast hne).resultingAccounts ∧
      (steps.foldl (fun c s => c.absorb s) init).innerInstructions
          = (steps.getLast hne).innerInstructions ∧
      (steps.foldl (fun c s => c.absorb s) init).message
          = (steps.getLast hne).message := by
  induction steps with
  | nil => exact absurd rfl hne
  | cons s rest ih =>
    intro init
    rcases rest with - | ⟨t, rest'⟩
    · simp [InstructionResult.absorb, List.getLast]
    · rw [List.foldl_cons]
      have hlast : (s :: t :: rest').getLast hne = (t :: rest').getLast (by simp) :=
        List.getLast_cons (by simp)
      rw [hlast]
      exact ih (by simp) (init.absorb s)

/-- **C3.** For every instruction chain processed by
`process_instruction_chain`: the inputs to step `k` are the
`resulting_accounts` of step `k-1` and the chain halts at the first failing
instruction (both embodied by `chainSteps`), and the composite result's
`compute_units_consumed` and `execution_time` are the sums over the executed
steps while its `program_result`, `raw_result`, `return_data`,
`resulting_accounts`, `inner_instructions`, and `message` are exactly those
of the last executed instruction. -/
theorem C3_chain_fold_semantics :
    ∀ env instructions accounts fallbackAccounts steps r,
      get_account_fallbacks env (instructions.map (·.programId)) instructions accounts
        = some fallbackAccounts →
      chainSteps env fallbackAccounts 0 accounts instructions = some steps →
      process_instruction_chain env instructions accounts = some r →
      r = steps.foldl (fun c s => c.absorb s)
        { default_instruction_result with resultingAccounts := accounts } ∧
      r.computeUnitsConsumed = (steps.map (·.computeUnitsConsumed)).sum ∧
      r.executionTime = (steps.map (·.executionTime)).sum ∧
      ∀ hne : steps ≠ [],
        r.programResult = (steps.getLast hne).programResult ∧
        r.rawResult = (steps.getLast hne).rawResult ∧
        r.returnData = (steps.getLast hne).returnData ∧
        r.resultingAccounts = (steps.getLast hne).resultingAccounts ∧
        r.innerInstructions = (steps.getLast hne).innerInstructions ∧
        r.message = (steps.getLast hne).message := by
  intro env instructions accounts fallbackAccounts steps r hfb hsteps hr
  unfold process_instruction_chain at hr
  rw [hfb] at hr
  simp only [Option.bind_eq_bind, Option.some_bind] at hr
  rw [chainLoop_eq_steps] at hr
  have hacc : ({ default_instruction_result with resultingAccounts := accounts }
      : InstructionResult).resultingAccounts = accounts := rfl
  rw [hacc, hsteps] at hr
  simp only [Option.map_some', Option.some.injEq] at hr
  have hrr : r = steps.foldl (fun c s => c.absorb s)
      { default_instruction_result with resultingAccounts := accounts } := hr.symm
  subst hrr
  refine ⟨rfl, ?_, ?_, ?_⟩
  · rw [foldl_absorb_cu]
    simp [default_instruction_result]
  · rw [foldl_absorb_time]
    simp [default_instruction_result]
  · intro hne
    exact foldl_absorb_last steps hne _

/-! ## C3 witness fixtures -/

/-- A two-element instruction chain. -/
def sampleChainInstructions : List Instruction := [sampleIx, sampleIx]

/-- The fallback map computed for the sample chain. -/
def sampleChainFallbacks : List (Pubkey × Account) :=
  (get_account_fallbacks sampleEnvOk (sampleChainInstructions.map (·.programId))
    sampleChainInstructions [(2, sampleAccount)]).getD []

/-- The per-step results of the sample chain. -/
def sampleChainSteps : List InstructionResult :=
  (chainSteps sampleEnvOk sampleChainFallbacks 0 [(2, sampleAccount)]
    sampleChainInstructions).getD []

/-- The composite result of the sample chain. -/
def sampleChainResult : InstructionResult :=
  (process_instruction_chain sampleEnvOk sampleChainInstructions
    [(2, sampleAccount)]).getD default_instruction_result

/-- Witness for C3 at a concrete two-step chain: CU add up (11 + 11) and the
composite result carries the last step's program result. -/
theorem C3_witness :
    (get_account_fallbacks sampleEnvOk (sampleChainInstructions.map (·.programId))
        sampleChainInstructions [(2, sampleAccount)] = some sampleChainFallbacks) ∧
    (chainSteps sampleEnvOk sampleChainFallbacks 0 [(2, sampleAccount)]
        sampleChainInstructions = some sampleChainSteps) ∧
    (process_instruction_chain sampleEnvOk sampleChainInstructions [(2, sampleAccount)]
        = some sampleChainResult) ∧
    sampleChainResult.computeUnitsConsumed = 22 ∧
    sampleChainResult.programResult = ProgramResult.Success :=
  ⟨by decide, by decide, by decide,
    by
      have h := (C3_chain_fold_semantics sampleEnvOk sampleChainInstructions
        [(2, sampleAccount)] sampleChainFallbacks sampleChainSteps sampleChainResult
        (by decide) (by decide) (by decide)).2.1
      rw [h]; decide,
    by
      have h := ((C3_chain_fold_semantics sampleEnvOk sampleChainInstructions
        [(2, sampleAccount)] sampleChainFallbacks sampleChainSteps sampleChainResult
        (by decide) (by decide) (by decide)).2.2.2 (by decide)).1
      rw [h]; decide⟩

/-! ## C6 -/

/-- Replacing the `k`-entry leaves lookups at other keys unchanged. -/
lemma lookupAccount_map_replace (k : Pubkey) (v : Account) (key : Pubkey) (hkey : key ≠ k) :
    ∀ m : List (Pubkey × Account),
      lookupAccount (m.map fun p => if p.1 == k then (k, v) else p) key
        = lookupAccount m key := by
  intro m
  induction m with
  | nil => rfl
  | cons q t ih =>
    rw [List.map_cons]
    by_cases hqk : q.1 = k
    · rw [show (if (q.1 == k) = true then (k, v) else q) = (k, v) by simp [hqk]]
      rw [lookupAccount, List.find?_cons_of_neg _ (by simpa using fun hc => hkey hc.symm),
        lookupAccount, List.find?_cons_of_neg _ (by simp [hqk]; exact fun hc => hkey hc.symm)]
      exact ih
    · rw [show (if (q.1 == k) = true then (k, v) else q) = q by simp [hqk]]
      by_cases hqkey : q.1 = key
      · rw [lookupAccount, List.find?_cons_of_pos _ (by simp [hqkey]),
          lookupAccount, List.find?_cons_of_pos _ (by simp [hqkey])]
      · rw [lookupAccount, List.find?_cons_of_neg _ (by simp [hqkey]),
          lookupAccount, List.find?_cons_of_neg _ (by simp [hqkey])]
        exact ih

/-- Replacing the `k`-entry makes the lookup at `k` return the new value,
provided an entry was there. -/
lemma lookupAccount_map_replace_self (k : Pubkey) (v : Account) :
    ∀ m : List (Pubkey × Account), m.any (·.1 == k) →
      lookupAccount (m.map fun p => if p.1 == k then (k, v) else p) k = some v := by
  intro m
  induction m with
  | nil => intro h; simp at h
  | cons q t ih =>
    intro hany
    rw [List.map_cons]
    by_cases hqk : q.1 = k
    · rw [show (if (q.1 == k) = true then (k, v) else q) = (k, v) by simp [hqk]]
      rw [lookupAccount, List.find?_cons_of_pos _ (by simp)]
      rfl
    · rw [show (if (q.1 == k) = true then (k, v) else q) = q by simp [hqk]]
      rw [lookupAccount, List.find?_cons_of_neg _ (by simp [hqk])]
      have : t.any (·.1 == k) := by
        rcases (by simpa using hany : q.1 = k ∨ t.any (·.1 == k) = true) with h | h
        · exact absurd h hqk
        · exact h
      exact ih this

/-- `HashMap::insert` lookup behaviour of the association-list model. -/
lemma lookupAccount_insertReplace (m : List (Pubkey × Account)) (k : Pubkey) (v : Account)
    (key : Pubkey) :
    lookupAccount (insertReplace m k v) key
      = if key = k then some v else lookupAccount m key := by
  by_cases hany : m.any (·.1 == k)
  · rw [insertReplace, if_pos hany]
    by_cases hkey : key = k
    · subst hkey
      rw [if_pos rfl]
      exact lookupAccount_map_replace_self key v m hany
    · rw [if_neg hkey]
      exact lookupAccount_map_replace k v key hkey m
  · rw [insertReplace, if_neg hany]
    unfold lookupAccount
    rw [List.find?_append]
    by_cases hkey : key = k
    · subst hkey
      have hfind : m.find? (·.1 == key) = none := by
        rw [List.find?_eq_none]
        intro p hp hc
        exact hany (List.any_of_mem hp hc)
      rw [hfind, if_pos rfl]
      simp [List.find?_cons_of_pos]
    · have hfk : List.find? (fun pa => pa.1 == key) [(k, v)] = none := by
        rw [List.find?_eq_none]
        intro p hp hc
        simp at hp
        rw [hp] at hc
        exact hkey ((by simpa using hc : k = key)).symm
      rw [hfk, if_neg hkey]
      cases m.find? (·.1 == key) <;> rfl

/-- A key is absent from an account vector exactly when its lookup fails. -/
lemma lookupAccount_eq_none_iff (accounts : List (Pubkey × Account)) (key : Pubkey) :
    lookupAccount accounts key = none ↔ accounts.any (·.1 == key) = false := by
  simp [lookupAccount, List.find?_eq_none, List.any_eq_false]

/-- Characterization of the program-stub fold inside
`get_account_fallbacks`. -/
lemma fold_program_stubs (env : Env) (accounts : List (Pubkey × Account)) :
    ∀ (allProgramIds : List Pubkey) (init out : List (Pubkey × Account)),
      allProgramIds.foldlM
        (fun fallbacks programId =>
          if accounts.any (·.1 == programId) then pure fallbacks
          else do
            let loaderKey ← env.getLoaderKeyFn programId
            pure (insertReplace fallbacks programId (loaderStub loaderKey)))
        init = some out →
      (∀ key, ¬ (key ∈ allProgramIds ∧ ¬ accounts.any (·.1 == key)) →
        lookupAccount out key = lookupAccount init key) ∧
      (∀ key, key ∈ allProgramIds → ¬ accounts.any (·.1 == key) →
        ∃ loaderKey, env.getLoaderKeyFn key = some loaderKey ∧
          lookupAccount out key = some (loaderStub loaderKey)) := by
  intro allProgramIds
  induction allProgramIds with
  | nil =>
    intro init out h
    simp only [List.foldlM_nil, Option.pure_def, Option.some.injEq] at h
    subst h
    exact ⟨fun _ _ => rfl, fun key hmem => absurd hmem (by simp)⟩
  | cons pid rest ih =>
    intro init out h
    rw [List.foldlM_cons] at h
    by_cases hpid : accounts.any (·.1 == pid)
    · rw [if_pos hpid] at h
      simp only [Option.pure_def, Option.bind_eq_bind, Option.some_bind] at h
      obtain ⟨h1, h2⟩ := ih init out h
      constructor
      · intro key hk
        refine h1 key fun hc => hk ⟨by simp [hc.1], hc.2⟩
      · intro key hmem hkey
        rcases List.mem_cons.mp hmem with heq | hmem'
        · subst heq; exact absurd hpid hkey
        · exact h2 key hmem' hkey
    · rw [if_neg hpid] at h
      cases hl : env.getLoaderKeyFn pid with
      | none => rw [hl] at h; simp at h
      | some loaderKey =>
        rw [hl] at h
        simp only [Option.pure_def, Option.bind_eq_bind, Option.some_bind] at h
        obtain ⟨h1, h2⟩ := ih (insertReplace init pid (loaderStub loaderKey)) out h
        constructor
        · intro key hk
          have hkpid : key ≠ pid := by
            intro hc
            subst hc
            exact hk ⟨by simp, hpid⟩
          have hkrest : ¬ (key ∈ rest ∧ ¬ accounts.any (·.1 == key)) := by
            intro hc
            exact hk ⟨by simp [hc.1], hc.2⟩
          rw [h1 key hkrest, lookupAccount_insertReplace, if_neg hkpid]
        · intro key hmem hkey
          by_cases hkrest : key ∈ rest
          · exact h2 key hkrest hkey
          · have heq : key = pid := by
              rcases List.mem_cons.mp hmem with h' | h'
              · exact h'
              · exact absurd h' hkrest
            subst heq
            refine ⟨loaderKey, hl, ?_⟩
            have : ¬ (key ∈ rest ∧ ¬ accounts.any (·.1 == key)) := fun hc => hkrest hc.1
            rw [h1 key this, lookupAccount_insertReplace, if_pos rfl]

/-- Lookup characterization of the full fallback map built by
`get_account_fallbacks`: caller-covered keys are absent; the instructions
sysvar (when not caller-covered) maps to its synthesized account; uncovered
program ids map to loader stubs; everything else is absent. -/
lemma get_account_fallbacks_lookup (env : Env) (allProgramIds : List Pubkey)
    (allInstructions : List Instruction) (accounts fb : List (Pubkey × Account))
    (h : get_account_fallbacks env allProgramIds allInstructions accounts = some fb) :
    (∀ key, accounts.any (·.1 == key) → lookupAccount fb key = none) ∧
    (¬ accounts.any (·.1 == INSTRUCTIONS_SYSVAR_ID) →
      lookupAccount fb INSTRUCTIONS_SYSVAR_ID
        = some (instructionsSysvarAccount env allInstructions)) ∧
    (∀ key, ¬ accounts.any (·.1 == key) → key ≠ INSTRUCTIONS_SYSVAR_ID →
      key ∈ allProgramIds →
      ∃ loaderKey, env.getLoaderKeyFn key = some loaderKey ∧
        lookupAccount fb key = some (loaderStub loaderKey)) ∧
    (∀ key, key ∉ allProgramIds → key ≠ INSTRUCTIONS_SYSVAR_ID →
      lookupAccount fb key = none) := by
  unfold get_account_fallbacks at h
  cases hw : allProgramIds.foldlM
      (fun fallbacks programId =>
        if accounts.any (·.1 == programId) then pure fallbacks
        else do
          let loaderKey ← env.getLoaderKeyFn programId
          pure (insertReplace fallbacks programId (loaderStub loaderKey)))
      ([] : List (Pubkey × Account)) with
  | none => rw [hw] at h; simp at h
  | some w =>
    rw [hw] at h
    simp only [Option.bind_eq_bind, Option.some_bind] at h
    obtain ⟨w1, w2⟩ := fold_program_stubs env accounts allProgramIds [] w hw
    have hwnone : ∀ key, ¬ (key ∈ allProgramIds ∧ ¬ accounts.any (·.1 == key)) →
        lookupAccount w key = none := fun key hk => w1 key hk
    by_cases hsys : accounts.any (·.1 == INSTRUCTIONS_SYSVAR_ID)
    · rw [if_pos hsys] at h
      cases h
      refine ⟨?_, fun hc => absurd hsys hc, ?_, ?_⟩
      · intro key hkey
        exact hwnone key fun hc => hc.2 hkey
      · intro key hkey hnsys hmem
        exact w2 key hmem hkey
      · intro key hmem hnsys
        exact hwnone key fun hc => hmem hc.1
    · rw [if_neg hsys] at h
      cases h
      refine ⟨?_, ?_, ?_, ?_⟩
      · intro key hkey
        have hknsys : key ≠ INSTRUCTIONS_SYSVAR_ID := by
          intro hc; subst hc; exact hsys hkey
        rw [lookupAccount_insertReplace, if_neg hknsys]
        exact hwnone key fun hc => hc.2 hkey
      · intro _
        rw [lookupAccount_insertReplace, if_pos rfl]
      · intro key hkey hnsys hmem
        obtain ⟨l, hl, hlk⟩ := w2 key hmem hkey
        refine ⟨l, hl, ?_⟩
        rw [lookupAccount_insertReplace, if_neg hnsys]
        exact hlk
      · intro key hmem hnsys
        rw [lookupAccount_insertReplace, if_neg hnsys]
        exact hwnone key fun hc => hmem hc.1

/-- A `mapM'` over `Option` fails as soon as one element fails. -/
lemma option_mapM'_none {α β : Type} (f : α → Option β) :
    ∀ (l : List α) (a : α), a ∈ l → f a = none → l.mapM' f = none := by
  intro l
  induction l with
  | nil => intro a ha; simp at ha
  | cons x rest ih =>
    intro a ha hfa
    simp only [List.mapM']
    rcases List.mem_cons.mp ha with heq | hmem
    · subst heq; rw [hfa]; rfl
    · cases hx : f x
      · rfl
      · rw [ih a hmem hfa]; rfl

/-- The account-resolution pipeline shared by the facade entry points:
compute the fallback map with `get_account_fallbacks`, then resolve one
transaction account per compiled message key with
`build_transaction_accounts` (as in `process_instruction` and
`process_transaction_instructions`). -/
def compile_with_fallbacks (env : Env) (instructions : List Instruction)
    (accounts : List (Pubkey × Account)) : Option (List (Pubkey × Account)) := do
  let fallbackAccounts ← get_account_fallbacks env (instructions.map (·.programId))
    instructions accounts
  build_transaction_accounts env (env.messageKeys instructions) accounts instructions
    fallbackAccounts

/-- **C6.** For every key in the compiled message, the Account Compiler
resolves the transaction account by this priority: (a) a caller-provided
account matching the key; (b) a fallback-map entry (which, for program-ID
keys, is a synthesized stub
`{lamports: 0, data: [], owner: <inferred loader key>, executable: true}`,
and for the instructions-sysvar key is the canonical serialized form
synthesized from the instructions); otherwise (e) it fails with
`AccountMissing(key)`.  Stated for the standard pipeline (the
instructions-sysvar address is never a target program id). -/
theorem C6_account_resolution_priority :
    (∀ env instructions accounts tx,
      INSTRUCTIONS_SYSVAR_ID ∉ instructions.map (·.programId) →
      compile_with_fallbacks env instructions accounts = some tx →
      ∀ (i : Nat) (key : Pubkey), (env.messageKeys instructions)[i]? = some key →
        (∀ a, lookupAccount accounts key = some a → tx[i]? = some (key, a)) ∧
        (lookupAccount accounts key = none → key ∈ instructions.map (·.programId) →
          ∃ loaderKey, env.getLoaderKeyFn key = some loaderKey ∧
            tx[i]? = some (key, loaderStub loaderKey)) ∧
        (lookupAccount accounts key = none → key ∉ instructions.map (·.programId) →
          key = INSTRUCTIONS_SYSVAR_ID →
          tx[i]? = some (key, instructionsSysvarAccount env instructions))) ∧
    (∀ env instructions accounts key,
      key ∈ env.messageKeys instructions →
      lookupAccount accounts key = none →
      key ∉ instructions.map (·.programId) →
      key ≠ INSTRUCTIONS_SYSVAR_ID →
      compile_with_fallbacks env instructions accounts = none) := by
  constructor
  · intro env instructions accounts tx hs hcomp i key hkey
    unfold compile_with_fallbacks at hcomp
    cases hfb : get_account_fallbacks env (instructions.map (·.programId)) instructions
      accounts with
    | none => rw [hfb] at hcomp; simp at hcomp
    | some fb =>
      rw [hfb] at hcomp
      simp only [Option.bind_eq_bind, Option.some_bind] at hcomp
      obtain ⟨F1, F2, F3, F4⟩ := get_account_fallbacks_lookup env
        (instructions.map (·.programId)) instructions accounts fb hfb
      unfold build_transaction_accounts at hcomp
      rw [← List.mapM'_eq_mapM] at hcomp
      have hgl := option_mapM'_getElem _ (env.messageKeys instructions) tx hcomp i key hkey
      refine ⟨?_, ?_, ?_⟩
      · intro a ha
        rw [hgl]
        simp only [resolve_transaction_account]
        rw [ha]
        simp
      · intro hnone hmem
        have hnotany : ¬ accounts.any (·.1 == key) := by
          rw [(lookupAccount_eq_none_iff accounts key).mp hnone]
          simp
        have hnsys : key ≠ INSTRUCTIONS_SYSVAR_ID := fun hc => hs (hc ▸ hmem)
        obtain ⟨loaderKey, hl, hlk⟩ := F3 key hnotany hnsys hmem
        refine ⟨loaderKey, hl, ?_⟩
        rw [hgl]
        simp only [resolve_transaction_account]
        rw [if_pos (List.elem_iff.mpr hmem), hnone, hlk]
      · intro hnone hnmem hsys
        subst hsys
        have hnotany : ¬ accounts.any (·.1 == INSTRUCTIONS_SYSVAR_ID) := by
          rw [(lookupAccount_eq_none_iff accounts _).mp hnone]
          simp
        rw [hgl]
        simp only [resolve_transaction_account]
        rw [if_neg fun hc => hnmem (List.elem_iff.mp hc), if_pos (by simp), hnone,
          F2 hnotany]
  · intro env instructions accounts key hmemkeys hnone hnmem hnsys
    unfold compile_with_fallbacks
    cases hfb : get_account_fallbacks env (instructions.map (·.programId)) instructions
      accounts with
    | none => rfl
    | some fb =>
      simp only [Option.bind_eq_bind, Option.some_bind]
      obtain ⟨F1, F2, F3, F4⟩ := get_account_fallbacks_lookup env
        (instructions.map (·.programId)) instructions accounts fb hfb
      unfold build_transaction_accounts
      rw [← List.mapM'_eq_mapM]
      refine option_mapM'_none _ (env.messageKeys instructions) key hmemkeys ?_
      simp only [resolve_transaction_account]
      rw [if_neg fun hc => hnmem (List.elem_iff.mp hc),
        if_neg (by simpa using hnsys), hnone, F4 key hnmem hnsys]

/-- An environment whose compiled message also references the
caller-provided account `2` and the instructions sysvar. -/
def sampleEnvC6 : Env :=
  { sampleEnvOk with
    messageKeys := fun ixs => ixs.map (·.programId) ++ [2, INSTRUCTIONS_SYSVAR_ID] }

/-- The transaction accounts compiled for the C6 witness. -/
def sampleCompiledC6 : List (Pubkey × Account) :=
  (compile_with_fallbacks sampleEnvC6 [sampleIx] [(2, sampleAccount)]).getD []

/-- An environment whose compiled message references the unknown key `99`. -/
def sampleEnvMissing : Env :=
  { sampleEnvOk with messageKeys := fun ixs => ixs.map (·.programId) ++ [99] }

/-- Witness for C6: the caller-provided account is taken verbatim, the
instructions sysvar is synthesized, and an unresolvable key aborts
compilation (`AccountMissing`). -/
theorem C6_witness :
    (INSTRUCTIONS_SYSVAR_ID ∉ [sampleIx].map (·.programId)) ∧
    (compile_with_fallbacks sampleEnvC6 [sampleIx] [(2, sampleAccount)]
      = some sampleCompiledC6) ∧
    ((sampleEnvC6.messageKeys [sampleIx])[1]? = some 2) ∧
    (lookupAccount [(2, sampleAccount)] 2 = some sampleAccount) ∧
    sampleCompiledC6[1]? = some (2, sampleAccount) ∧
    ((sampleEnvC6.messageKeys [sampleIx])[2]? = some INSTRUCTIONS_SYSVAR_ID) ∧
    sampleCompiledC6[2]? = some (INSTRUCTIONS_SYSVAR_ID,
      instructionsSysvarAccount sampleEnvC6 [sampleIx]) ∧
    ((99 : Pubkey) ∈ sampleEnvMissing.messageKeys [sampleIx]) ∧
    compile_with_fallbacks sampleEnvMissing [sampleIx] [(2, sampleAccount)] = none :=
  ⟨by decide, by decide, by decide, by decide,
    (C6_account_resolution_priority.1 sampleEnvC6 [sampleIx] [(2, sampleAccount)]
        sampleCompiledC6 (by decide) (by decide) 1 2 (by decide)).1
      sampleAccount (by decide),
    by decide,
    (C6_account_resolution_priority.1 sampleEnvC6 [sampleIx] [(2, sampleAccount)]
        sampleCompiledC6 (by decide) (by decide) 2 INSTRUCTIONS_SYSVAR_ID (by decide)).2.2
      (by decide) (by decide) rfl,
    by decide,
    C6_account_resolution_priority.2 sampleEnvMissing [sampleIx] [(2, sampleAccount)] 99
      (by decide) (by decide) (by decide) (by decide)⟩
